import Mathlib

/-!
Verification development for the AgentLab core: the adaptive prompt
composition machinery (`agentlab/agents/dynamic_prompting.py`) and the
validated query-retry protocol (`agentlab/llm/llm_utils.py`).

Text is modelled as `List Char` throughout; Python string operations
(`splitlines`, `strip`, slicing, f-string number rendering, the regular
expressions used by the source) are given explicit executable models.
-/

set_option maxHeartbeats 1000000

namespace AgentLab

/-- Text is modelled as a list of characters. -/
abbrev Chars := List Char

/-- Whether `pat` is a prefix of `s`, by character equality. -/
def hasPrefixA : Chars → Chars → Bool
  | [], _ => true
  | _ :: _, [] => false
  | p :: ps, c :: cs => p == c && hasPrefixA ps cs

/-- Split `s` at the first occurrence of the literal `pat`, returning the text
before the occurrence and the text after it, or `none` when `pat` does not
occur in `s`.  (For the nonempty literals used below this is exactly how
`re` locates a literal while scanning left to right.) -/
def splitOnce (pat : Chars) : Chars → Option (Chars × Chars)
  | [] => none
  | c :: rest =>
    if hasPrefixA pat (c :: rest) then some ([], (c :: rest).drop pat.length)
    else
      match splitOnce pat rest with
      | some (a, b) => some (c :: a, b)
      | none => none

/-- `noEarlyMatchB pat a rest = true` says that `pat` does not start at any
position strictly inside `a` when `a` is followed by `rest`. -/
def noEarlyMatchB (pat : Chars) : Chars → Chars → Bool
  | [], _ => true
  | c :: a, rest => !hasPrefixA pat (c :: (a ++ rest)) && noEarlyMatchB pat a rest

/-- Split on each newline character (every `'\n'` is a separator). -/
def splitOnNl : Chars → List Chars
  | [] => [[]]
  | c :: rest =>
    if c = '\n' then [] :: splitOnNl rest
    else
      match splitOnNl rest with
      | [] => [[c]]
      | l :: ls => (c :: l) :: ls

/-- Python `str.splitlines` (for text whose only line separator is `'\n'`,
which is the case for all strings built by the source): split on `'\n'`,
yield `[]` for the empty string, and do not yield a final empty line for a
trailing newline. -/
def pySplitlines (s : Chars) : List Chars :=
  match s with
  | [] => []
  | _ :: _ =>
    let parts := splitOnNl s
    if parts.getLast? = some [] then parts.dropLast else parts

/-- Python `"\n".join`. -/
def joinNl : List Chars → Chars
  | [] => []
  | [l] => l
  | l :: l' :: ls => l ++ '\n' :: joinNl (l' :: ls)

/-- The ASCII whitespace stripped by Python `str.strip()`. -/
def isPySpace (c : Char) : Bool :=
  c == ' ' || c == '\t' || c == '\n' || c == '\r' || c == '\x0b' || c == '\x0c'

/-- Python `str.strip()`. -/
def pyStrip (s : Chars) : Chars :=
  ((s.dropWhile isPySpace).reverse.dropWhile isPySpace).reverse

/-- Decimal digit character. -/
def digitChar : ℕ → Char
  | 0 => '0'
  | 1 => '1'
  | 2 => '2'
  | 3 => '3'
  | 4 => '4'
  | 5 => '5'
  | 6 => '6'
  | 7 => '7'
  | 8 => '8'
  | _ => '9'

/-- Accumulator loop for decimal rendering of a natural number (fuelled so
that it reduces by structural recursion; `natDigits` supplies fuel `n`,
which is sufficient since `n / 10 < n` for `n > 0`). -/
def natDigitsAux : ℕ → ℕ → Chars → Chars
  | 0, _, acc => acc
  | fuel + 1, n, acc =>
    if n = 0 then acc else natDigitsAux fuel (n / 10) (digitChar (n % 10) :: acc)

/-- Decimal rendering of a natural number, as an f-string would produce. -/
def natDigits (n : ℕ) : Chars :=
  if n = 0 then ['0'] else natDigitsAux n n []

/-- Decimal rendering of an integer, as an f-string would produce. -/
def intDigits (i : ℤ) : Chars :=
  if i < 0 then '-' :: natDigits (-i).toNat else natDigits i.toNat

/-- Python `int()` applied to a rational: truncation toward zero. -/
def pyInt (q : ℚ) : ℤ := if 0 ≤ q then ⌊q⌋ else -⌊-q⌋

/-- Python list slicing `l[:n]` for an integer bound `n` (a negative bound
counts from the end of the list). -/
def pySliceTo (l : List α) (n : ℤ) : List α :=
  if 0 ≤ n then l.take n.toNat else l.take (l.length - (-n).toNat)

/-! ## `agentlab.llm.llm_utils`: wait-time extraction -/

/-- Whether `c` matches the regex class `\d`. -/
def isDigitChar (c : Char) : Bool := '0' ≤ c && c ≤ '9'

/-- Numeric value of a decimal digit character. -/
def digitVal (c : Char) : ℕ := c.toNat - 48

/-- Greedily consume a run of decimal digits, returning the accumulated
value, the number of digits consumed, and the remaining text. -/
def takeDigits (acc k : ℕ) : Chars → ℕ × ℕ × Chars
  | [] => (acc, k, [])
  | c :: rest =>
    if isDigitChar c then takeDigits (acc * 10 + digitVal c) (k + 1) rest
    else (acc, k, c :: rest)

/-- Match the regex fragment `(\d+(\.\d+)?)s` at the start of `s`, returning
the matched number as a rational.  Greedy digit runs are equivalent to the
regex here because a digit can continue neither `\.` nor `s`. -/
def matchNum (s : Chars) : Option ℚ :=
  let r1 := takeDigits 0 0 s
  if r1.2.1 = 0 then none
  else
    match r1.2.2 with
    | 's' :: _ => some (r1.1 : ℚ)
    | '.' :: r2 =>
      let r3 := takeDigits 0 0 r2
      if r3.2.1 = 0 then none
      else
        match r3.2.2 with
        | 's' :: _ => some ((r1.1 : ℚ) + (r3.1 : ℚ) / ((10 : ℚ) ^ r3.2.1))
        | _ => none
    | _ => none

/-- The literal part of the wait-time pattern. -/
def tryAgainLit : Chars := "try again in ".data

/-- Model of `re.search(r"try again in (\d+(\.\d+)?)s", error_message)`:
scan positions left to right and return the first captured number. -/
def searchWait : Chars → Option ℚ
  | [] => none
  | c :: rest =>
    if hasPrefixA tryAgainLit (c :: rest) then
      match matchNum ((c :: rest).drop tryAgainLit.length) with
      | some q => some q
      | none => searchWait rest
    else searchWait rest

/-- `_extract_wait_time`: the suggested wait parsed from the error text,
floored at `min_retry_wait_time`; the minimum alone when no match. -/
def extract_wait_time (error_message : Chars) (min_retry_wait_time : ℚ) : ℚ :=
  match searchWait error_message with
  | some w => max min_retry_wait_time w
  | none => min_retry_wait_time

/-! ## `agentlab.llm.llm_utils`: the retry driver

The langchain chat endpoint is modelled as the sequence of outcomes of its
successive `invoke` calls: each call either raises a `RateLimitError`
carrying an error message, or returns a reply with the given content.  The
conversation is the ordered list of role-tagged turns; `retry` appends the
model's reply (`messages.append(answer)`) and, on a parse failure, a
corrective `HumanMessage`.  Sleeping is recorded in the trace. -/

/-- One turn of the conversation. -/
inductive Turn where
  | system (content : Chars)
  | assistant (content : Chars)
  | human (content : Chars)
deriving DecidableEq

/-- One outcome of `chat.invoke(messages)`. -/
inductive ChatOutcome where
  | rateLimit (errMsg : Chars)
  | reply (content : Chars)
deriving DecidableEq

/-- How a run of `retry` terminates. -/
inductive RetryResult (α : Type) where
  | success (value : α)
  | retryError (msg : Chars)
  | rateLimitError (errMsg : Chars)
  | noMoreOutcomes
deriving DecidableEq

/-- The observable trace of a `retry` run: its result, the final
conversation, the sequence of sleeps performed, and the number of endpoint
invocations made. -/
structure RetryTrace (α : Type) where
  result : RetryResult α
  messages : List Turn
  sleeps : List ℚ
  invocations : ℕ
deriving DecidableEq

/-- The message of the terminal `RetryError`. -/
def retryErrMsg (n_retry : ℕ) : Chars :=
  "Could not parse a valid value after ".data ++ natDigits n_retry ++ " retries.".data

/-- The loop of `retry` (`llm_utils.py`).  `prs` is the parser returning
`(value, valid, retry_message)`; `outcomes` models the endpoint; `tries`,
`delay` (= `rate_limit_total_delay`) and the accumulators start at zero. -/
def retryGo (prs : Chars → α × Bool × Chars) (n_retry : ℕ) (minW maxW : ℚ) :
    List ChatOutcome → List Turn → ℕ → ℚ → List ℚ → ℕ → RetryTrace α
  | outcomes, messages, tries, delay, sleeps, inv =>
    if tries < n_retry ∧ delay < maxW then
      match outcomes with
      | [] => ⟨.noMoreOutcomes, messages, sleeps, inv⟩
      | ChatOutcome.rateLimit err :: rest =>
        let w := extract_wait_time err minW
        if maxW ≤ delay + w then
          ⟨.rateLimitError err, messages, sleeps ++ [w], inv + 1⟩
        else
          retryGo prs n_retry minW maxW rest messages tries (delay + w) (sleeps ++ [w]) (inv + 1)
      | ChatOutcome.reply content :: rest =>
        let pr := prs content
        if pr.2.1 then
          ⟨.success pr.1, messages ++ [Turn.assistant content], sleeps, inv + 1⟩
        else
          retryGo prs n_retry minW maxW rest
            (messages ++ [Turn.assistant content, Turn.human pr.2.2])
            (tries + 1) delay sleeps (inv + 1)
    else ⟨.retryError (retryErrMsg n_retry), messages, sleeps, inv⟩

/-- `retry` (`llm_utils.py`): run the loop from the initial state. -/
def retry (prs : Chars → α × Bool × Chars) (n_retry : ℕ) (minW maxW : ℚ)
    (outcomes : List ChatOutcome) (messages : List Turn) : RetryTrace α :=
  retryGo prs n_retry minW maxW outcomes messages 0 0 [] 0

/-! ## `agentlab.llm.llm_utils`: structured response parsing -/

/-- The opening tag for a key. -/
def openTag (key : Chars) : Chars := '<' :: (key ++ ['>'])

/-- The closing tag for a key. -/
def closeTag (key : Chars) : Chars := '<' :: '/' :: (key ++ ['>'])

/-- Fuelled scan for `re.findall(f"<{key}>(.*?)</{key}>", text, re.DOTALL)`:
find the first opening tag, then the first closing tag after it (non-greedy
content), capture the content in between, and continue after the closing
tag.  `tagContents` below supplies sufficient fuel. -/
def tagLoop (openT closeT : Chars) : ℕ → Chars → List Chars
  | 0, _ => []
  | fuel + 1, s =>
    match (splitOnce openT s).bind fun pr => splitOnce closeT pr.2 with
    | none => []
    | some (content, rest) => content :: tagLoop openT closeT fuel rest

/-- All captures of the pattern `<key>(.*?)</key>` in `text` (keys are used
literally; the keys appearing in the repository contain no regex
metacharacters). -/
def tagContents (key : Chars) (text : Chars) : List Chars :=
  tagLoop (openTag key) (closeTag key) text.length text

/-- `extract_html_tags` restricted to one key: every capture, stripped.
(The lowercasing mentioned in the source docstring is commented out in the
code, so matching is case-sensitive.) -/
def extractKey (text key : Chars) : List Chars :=
  (tagContents key text).map pyStrip

/-- Python-level runtime errors surfaced by the models below: the
`TypeError` from `len(None)`, the `AttributeError` from `None.splitlines()`,
and the `IndexError` from `val[0]` on an empty string. -/
inductive PyErr where
  | typeError
  | attributeError
  | indexError
deriving DecidableEq

instance {ε α : Type _} [DecidableEq ε] [DecidableEq α] : DecidableEq (Except ε α) :=
  fun a b =>
    match a, b with
    | .ok x, .ok y =>
      if h : x = y then isTrue (by rw [h]) else isFalse (fun hc => h (by cases hc; rfl))
    | .error x, .error y =>
      if h : x = y then isTrue (by rw [h]) else isFalse (fun hc => h (by cases hc; rfl))
    | .ok _, .error _ => isFalse (fun hc => by cases hc)
    | .error _, .ok _ => isFalse (fun hc => by cases hc)

/-- A value held by `content_dict` in `parse_html_tags`: the capture list
written by `extract_html_tags`, or the string written back by the
validation loop (which mutates the dict in place, so a key occurring twice
in `keys + optional_keys` re-processes its own string value). -/
inductive PyVal where
  | vList (l : List Chars)
  | vStr (s : Chars)
deriving DecidableEq

/-- A Python dict with string keys: an insertion-ordered association list
with unique keys. -/
abbrev PyDict := List (Chars × PyVal)

/-- Dict lookup (`key in d` / `d[key]`). -/
def dictGet : PyDict → Chars → Option PyVal
  | [], _ => none
  | (k0, v0) :: rest, k => if k0 = k then some v0 else dictGet rest k

/-- Dict assignment `d[key] = v`: replace in place, else append. -/
def dictSet : PyDict → Chars → PyVal → PyDict
  | [], k, v => [(k, v)]
  | (k0, v0) :: rest, k, v =>
    if k0 = k then (k0, v) :: rest else (k0, v0) :: dictSet rest k v

/-- `val[0]`: first element of a list (a string), or the first character of
a string as a one-character string; `IndexError` when empty. -/
def pyIndex0 : PyVal → Except PyErr Chars
  | .vList [] => .error .indexError
  | .vList (v :: _) => .ok v
  | .vStr [] => .error .indexError
  | .vStr (c :: _) => .ok [c]

/-- `len(val)`. -/
def pyValLen : PyVal → ℕ
  | .vList l => l.length
  | .vStr s => s.length

/-- `"\n".join(val)`: join a list of strings, or the characters of a
string, with newlines. -/
def pyJoin : PyVal → Chars
  | .vList l => joinNl l
  | .vStr s => joinNl (s.map fun c => [c])

/-- `extract_html_tags`: the content dictionary mapping each key with at
least one capture to its list of stripped captures. -/
def extract_html_tags (text : Chars) (keys : List Chars) : PyDict :=
  keys.foldl (fun d key =>
    match extractKey text key with
    | [] => d
    | v :: vs => dictSet d key (PyVal.vList (v :: vs))) []

/-- The message accumulated for a required key with no occurrence. -/
def missing_msg (key : Chars) : Chars :=
  "Missing the key <".data ++ key ++ "> in the answer.".data

/-- The message accumulated for a key occurring more than once when
`merge_multiple` is false. -/
def multiple_msg (key : Chars) : Chars :=
  "Found multiple instances of the key ".data ++ key
    ++ ". You should have only one of them.".data

/-- One iteration of the validation loop of `parse_html_tags`, over the
mutable state (the content dict and the accumulated retry messages):
absent keys may add a missing-key message; present keys have their value
replaced by `val[0]` and, when `len(val) > 1`, either add a multiplicity
message or get the newline-join written back. -/
def parseStep (optional_keys : List Chars) (merge_multiple : Bool)
    (d : PyDict) (msgs : List Chars) (key : Chars) :
    Except PyErr (PyDict × List Chars) :=
  match dictGet d key with
  | none =>
    if key ∈ optional_keys then .ok (d, msgs)
    else .ok (d, msgs ++ [missing_msg key])
  | some val =>
    match pyIndex0 val with
    | .error e => .error e
    | .ok v0 =>
      let d1 := dictSet d key (PyVal.vStr v0)
      if 1 < pyValLen val then
        if merge_multiple then .ok (dictSet d1 key (PyVal.vStr (pyJoin val)), msgs)
        else .ok (d1, msgs ++ [multiple_msg key])
      else .ok (d1, msgs)

/-- The validation loop of `parse_html_tags` over `all_keys`, in order,
threading the mutable state (the content dict and the message list). -/
def parseLoop (optional_keys : List Chars) (merge_multiple : Bool) :
    List Chars → PyDict → List Chars → Except PyErr (PyDict × List Chars)
  | [], d, msgs => .ok (d, msgs)
  | key :: rest, d, msgs =>
    match parseStep optional_keys merge_multiple d msgs key with
    | .error e => .error e
    | .ok (d', msgs') => parseLoop optional_keys merge_multiple rest d' msgs'

/-- `parse_html_tags`: the mutated content dict, validity, and the
correction message. -/
def parse_html_tags (text : Chars) (keys optional_keys : List Chars)
    (merge_multiple : Bool) : Except PyErr (PyDict × Bool × Chars) :=
  match parseLoop optional_keys merge_multiple (keys ++ optional_keys)
      (extract_html_tags text (keys ++ optional_keys)) [] with
  | .error e => .error e
  | .ok (d, msgs) => .ok (d, msgs.isEmpty, joinNl msgs)

/-- `parse_html_tags_raise`: raise `ParseError(retry_message)` (the inner
`Except`) when parsing was not valid, else return the mapping. -/
def parse_html_tags_raise (text : Chars) (keys optional_keys : List Chars)
    (merge_multiple : Bool) : Except PyErr (Except Chars PyDict) :=
  match parse_html_tags text keys optional_keys merge_multiple with
  | .error e => .error e
  | .ok (d, valid, retry_message) =>
    if valid then .ok (.ok d) else .ok (.error retry_message)

/-- The retry messages contributed by one key that the loop visits exactly
once (its dict entry still the capture list).  For key lists without
duplicates this characterises the loop's messages; see
`parseLoop_nodup`. -/
def keyMsgs (text : Chars) (optional_keys : List Chars) (merge_multiple : Bool)
    (key : Chars) : List Chars :=
  match extractKey text key with
  | [] => if key ∈ optional_keys then [] else [missing_msg key]
  | [_] => []
  | _ :: _ :: _ => if merge_multiple then [] else [multiple_msg key]

/-- All retry messages accumulated by `parse_html_tags` when
`keys ++ optional_keys` has no duplicates (proved in
`parse_html_tags_spec`). -/
def parseMsgs (text : Chars) (keys optional_keys : List Chars)
    (merge_multiple : Bool) : List Chars :=
  ((keys ++ optional_keys).map (keyMsgs text optional_keys merge_multiple)).flatten

/-! ## `agentlab.agents.dynamic_prompting`: prompt elements -/

/-- The `visible` argument of a `PromptElement`: a plain boolean or a
zero-argument callable evaluated at access time. -/
inductive VisSpec where
  | const (b : Bool)
  | pred (f : Unit → Bool)

/-- `PromptElement.is_visible`: call the callable, or return the boolean. -/
def VisSpec.eval : VisSpec → Bool
  | .const b => b
  | .pred f => f ()

/-- A leaf `PromptElement`: the `visible` argument and the `_prompt`,
`_abstract_ex` and `_concrete_ex` bodies. -/
structure PromptElementS where
  visible : VisSpec
  pBody : Chars
  abstractBody : Chars
  concreteBody : Chars

/-- `PromptElement.is_visible`. -/
def PromptElementS.is_visible (e : PromptElementS) : Bool := e.visible.eval

/-- `PromptElement._hide`: the value when visible, else the empty string. -/
def PromptElementS.hide (e : PromptElementS) (v : Chars) : Chars :=
  if e.is_visible then v else []

/-- `PromptElement.prompt`. -/
def PromptElementS.prompt (e : PromptElementS) : Chars := e.hide e.pBody

/-- `PromptElement.abstract_ex`. -/
def PromptElementS.abstract_ex (e : PromptElementS) : Chars := e.hide e.abstractBody

/-- `PromptElement.concrete_ex`. -/
def PromptElementS.concrete_ex (e : PromptElementS) : Chars := e.hide e.concreteBody

/-! ## `agentlab.agents.dynamic_prompting`: `Trunkater` -/

/-- The state of a `Trunkater` (tail-truncating shrinkable element):
constructor arguments `visible`, `shrink_speed`, `start_trunkate_iteration`,
the counters initialised to zero, and the `_prompt` body set by the
subclass constructors (`HTML`, `AXTree`). -/
structure TrunkaterS where
  visible : VisSpec
  shrink_speed : ℚ
  start_trunkate_iteration : ℕ
  shrink_calls : ℕ
  deleted_lines : ℤ
  pBody : Chars

/-- `Trunkater.__init__`: counters start at zero. -/
def TrunkaterS.init (visible : VisSpec) (shrink_speed : ℚ)
    (start_trunkate_iteration : ℕ) (pBody : Chars) : TrunkaterS :=
  ⟨visible, shrink_speed, start_trunkate_iteration, 0, 0, pBody⟩

/-- `Trunkater.is_visible` (inherited). -/
def TrunkaterS.is_visible (t : TrunkaterS) : Bool := t.visible.eval

/-- `Trunkater.prompt` (inherited `_hide` gating). -/
def TrunkaterS.prompt (t : TrunkaterS) : Chars :=
  if t.is_visible then t.pBody else []

/-- The one-line deletion marker appended by `Trunkater.shrink`
(without its leading newline). -/
def trunkMarker (deleted : ℤ) : Chars :=
  "... Deleted ".data ++ intDigits deleted ++ " lines to reduce prompt size.".data

/-- `Trunkater.shrink`. -/
def TrunkaterS.shrink (t : TrunkaterS) : TrunkaterS :=
  if t.is_visible = true ∧ t.start_trunkate_iteration ≤ t.shrink_calls then
    let lines := pySplitlines t.pBody
    let new_line_count := pyInt ((lines.length : ℚ) * (1 - t.shrink_speed))
    let deleted := t.deleted_lines + ((lines.length : ℤ) - new_line_count)
    { t with
      deleted_lines := deleted,
      pBody := joinNl (pySliceTo lines new_line_count) ++ '\n' :: trunkMarker deleted,
      shrink_calls := t.shrink_calls + 1 }
  else
    { t with shrink_calls := t.shrink_calls + 1 }

/-! ## `agentlab.agents.dynamic_prompting`: `fit_tokens`

The shrinkable root is modelled by its `prompt` rendering function and its
`shrink` state transformer over an abstract state type; the tokenizer for
`model_name` is an abstract count function (`count_tokens(·, model=
model_name)`), and `countD` is the tokenizer of the default count model
used by the final diagnostic (`count_tokens(prompt_str)` omits the model
argument in the source). -/

/-- One part of a structured prompt fragment. -/
inductive Part where
  | text (s : Chars)
  | image (url : Chars)
deriving DecidableEq

/-- A rendered fragment: a plain string or a list of typed parts. -/
inductive Fragment where
  | str (s : Chars)
  | parts (l : List Part)
deriving DecidableEq

/-- The textual content of a fragment used for token counting: the string
itself, or the `"\n".join` of the text parts only (image parts excluded). -/
def fragmentText : Fragment → Chars
  | .str s => s
  | .parts l =>
    joinNl (l.filterMap fun p => match p with | .text t => some t | .image _ => none)

/-- The value returned by `fit_tokens`: the fragment, and the token count
reported by the over-budget diagnostic when the iteration cap was exhausted. -/
structure FitResult where
  fragment : Fragment
  diagnostic : Option ℕ
deriving DecidableEq

/-- The loop of `fit_tokens`: render, count the textual parts, return when
within budget, else shrink and repeat; when the iterations are exhausted
return the last rendered fragment together with the diagnostic count.
`none` models the unbound `prompt` variable when the loop body never ran
(`max_iterations = 0`). -/
def fitLoop {σ : Type _} (render : σ → Fragment) (shrinkF : σ → σ)
    (count countD : Chars → ℕ) (maxTok : ℕ) : ℕ → σ → Option FitResult
  | 0, _ => none
  | k + 1, s =>
    if count (fragmentText (render s)) ≤ maxTok then some ⟨render s, none⟩
    else
      match fitLoop render shrinkF count countD maxTok k (shrinkF s) with
      | some r => some r
      | none => some ⟨render s, some (countD (fragmentText (render s)))⟩

/-- `fit_tokens`: return the rendering unchanged when `max_prompt_tokens`
is `None`, else run the loop for `max_iterations` iterations. -/
def fit_tokens {σ : Type _} (render : σ → Fragment) (shrinkF : σ → σ)
    (count countD : Chars → ℕ) (max_prompt_tokens : Option ℕ) (max_iterations : ℕ)
    (s : σ) : Option FitResult :=
  match max_prompt_tokens with
  | none => some ⟨render s, none⟩
  | some maxTok => fitLoop render shrinkF count countD maxTok max_iterations s

/-! ## `agentlab.agents.dynamic_prompting`: `diff` and `Diff`

`difflib.ndiff` (Python standard library, an external collaborator of this
repository) is modelled as a longest-common-subsequence line diff emitting
`"  x"` for common lines, `"- x"` for removed lines and `"+ x"` for added
lines; the `"? "` intraline hint lines of the real `ndiff` are omitted —
the source's filter skips them anyway, since a stripped hint line starts
with `'?'`. -/

/-- Length of a longest common subsequence of two line lists (fuelled so
that it reduces by structural recursion; fuel `a.length + b.length` is
sufficient since every recursive call shortens the pair). -/
def ndiffLenF : ℕ → List Chars → List Chars → ℕ
  | 0, _, _ => 0
  | fuel + 1, xs0, ys0 =>
    match xs0, ys0 with
    | [], _ => 0
    | _ :: _, [] => 0
    | x :: xs, y :: ys =>
      if x = y then ndiffLenF fuel xs ys + 1
      else max (ndiffLenF fuel xs (y :: ys)) (ndiffLenF fuel (x :: xs) ys)

/-- Length of a longest common subsequence of two line lists. -/
def ndiffLen (a b : List Chars) : ℕ := ndiffLenF (a.length + b.length) a b

/-- The tagged lines produced by the `ndiff` model (fuelled like
`ndiffLenF`). -/
def ndiffLinesF : ℕ → List Chars → List Chars → List Chars
  | 0, _, _ => []
  | fuel + 1, xs0, ys0 =>
    match xs0, ys0 with
    | [], ys => ys.map fun y => '+' :: ' ' :: y
    | x :: xs, [] => (x :: xs).map fun x => '-' :: ' ' :: x
    | x :: xs, y :: ys =>
      if x = y then (' ' :: ' ' :: x) :: ndiffLinesF fuel xs ys
      else if ndiffLen (x :: xs) ys ≤ ndiffLen xs (y :: ys) then
        ('-' :: ' ' :: x) :: ndiffLinesF fuel xs (y :: ys)
      else ('+' :: ' ' :: y) :: ndiffLinesF fuel (x :: xs) ys

/-- The tagged lines produced by the `ndiff` model. -/
def ndiffLines (a b : List Chars) : List Chars :=
  ndiffLinesF (a.length + b.length) a b

/-- `line.strip().startswith("+")`. -/
def startsPlus (l : Chars) : Bool := hasPrefixA ['+'] (pyStrip l)

/-- `line.strip().startswith("-")` (tested only when the line does not
start with `"+"`, but the two cannot both hold). -/
def startsMinus (l : Chars) : Bool := hasPrefixA ['-'] (pyStrip l)

/-- The diff header for the general case. -/
def diffHeader (plus_count minus_count : ℕ) : Chars :=
  natDigits plus_count ++ " lines added and ".data ++ natDigits minus_count
    ++ " lines removed:".data

/-- The tail of `diff` once both arguments are known to be strings: the
`ndiff` generator, the filter keeping lines whose stripped form starts with
`"+"` or (else) `"-"`, the two counters, and the header. -/
def diffTail (p nw : Chars) : Chars × List Chars :=
  let dg := ndiffLines (pySplitlines p) (pySplitlines nw)
  (diffHeader (dg.filter startsPlus).length (dg.filter startsMinus).length,
    dg.filter fun l => startsPlus l || startsMinus l)

/-- `diff(previous, new)` (`dynamic_prompting.py`), over optional strings so
that the `previous is None` case is representable: `len(previous)` raises
`TypeError` on `None` before the `previous is None` test is reached, and
`new.splitlines()` would raise on a `None` new value. -/
def diffFn (previous new : Option Chars) : Except PyErr (Chars × List Chars) :=
  if previous = new then .ok ("Identical".data, [])
  else
    match previous with
    | none => .error .typeError
    | some p =>
      if p.length = 0 ∨ (some p : Option Chars) = none then
        .ok ("previous is empty".data, [])
      else
        match new with
        | none => .error .attributeError
        | some nw => .ok (diffTail p nw)

/-- The state of a `Diff` shrinkable element.  The field `pfx` models the
constructor argument `prefix`. -/
structure DiffS where
  visible : VisSpec
  max_line_diff : ℤ
  shrink_speed : ℤ
  header : Chars
  diff_lines : List Chars
  pfx : Chars

/-- `Diff.__init__`: header and diff lines come from `diff(previous, new)`. -/
def DiffS.init (previous new : Option Chars) (pfx : Chars)
    (max_line_diff shrink_speed : ℤ) (visible : VisSpec) : Except PyErr DiffS :=
  match diffFn previous new with
  | .error e => .error e
  | .ok hd => .ok ⟨visible, max_line_diff, shrink_speed, hd.1, hd.2, pfx⟩

/-- `Diff.shrink`: lower the ceiling by `shrink_speed`, never below 1. -/
def DiffS.shrink (d : DiffS) : DiffS :=
  { d with max_line_diff := max 1 (d.max_line_diff - d.shrink_speed) }

/-- The truncation notice appended when the diff exceeds the ceiling
(without its leading newline). -/
def diffNotice (hidden : ℤ) : Chars :=
  "Diff truncated, ".data ++ intDigits hidden ++ " changes now shown.".data

/-- `Diff._prompt`. -/
def DiffS.promptBody (d : DiffS) : Chars :=
  let diff_str := joinNl (pySliceTo d.diff_lines d.max_line_diff)
  let diff_str2 :=
    if (d.diff_lines.length : ℤ) > d.max_line_diff then
      diff_str ++ '\n' :: diffNotice ((d.diff_lines.length : ℤ) - d.max_line_diff)
    else diff_str
  d.pfx ++ d.header ++ '\n' :: (diff_str2 ++ ['\n'])

/-- `Diff.prompt` (inherited `_hide` gating). -/
def DiffS.prompt (d : DiffS) : Chars :=
  if d.visible.eval then d.promptBody else []

/-! ## `agentlab.agents.dynamic_prompting`: composite shrinkables -/

/-- The observation flags read by the modelled prompt elements. -/
structure ObsFlagsS where
  use_html : Bool
  use_ax_tree : Bool
  use_focused_element : Bool
  use_error_logs : Bool
  use_history : Bool
  use_past_error_logs : Bool
  use_action_history : Bool
  use_think_history : Bool
  use_diff : Bool

/-- The state of an `Observation` composite: its child elements (the HTML
and AXTree children are `Trunkater`s, the error and focused-element
children plain prompt elements).  `Observation` itself is constructed with
`visible=True`. -/
structure ObservationS where
  html : TrunkaterS
  ax_tree : TrunkaterS
  error : PromptElementS
  focused_element : PromptElementS

/-- `Observation.shrink`: shrink the AXTree child then the HTML child. -/
def ObservationS.shrink (o : ObservationS) : ObservationS :=
  { o with ax_tree := o.ax_tree.shrink, html := o.html.shrink }

/-- `Observation._prompt`. -/
def ObservationS.promptBody (o : ObservationS) : Chars :=
  "\n# Observation of current step:\n".data ++ o.html.prompt ++ o.ax_tree.prompt
    ++ o.focused_element.prompt ++ o.error.prompt ++ "\n\n".data

/-- `Observation.prompt`: `Observation` is always visible. -/
def ObservationS.prompt (o : ObservationS) : Chars := o.promptBody

/-- The state of a `HistoryStep` composite: two `Diff` children, an error
element, and the step data rendered by `_prompt`.  `HistoryStep` is
constructed with `visible=True`. -/
structure HistoryStepS where
  html_diff : DiffS
  ax_tree_diff : DiffS
  error : PromptElementS
  shrink_speed : ℤ
  action : Chars
  memory : Option Chars
  thought : Chars
  flags : ObsFlagsS

/-- `HistoryStep.shrink`: shrink both diff children. -/
def HistoryStepS.shrink (h : HistoryStepS) : HistoryStepS :=
  { h with html_diff := h.html_diff.shrink, ax_tree_diff := h.ax_tree_diff.shrink }

/-- `HistoryStep._prompt`. -/
def HistoryStepS.promptBody (h : HistoryStepS) : Chars :=
  (if h.flags.use_think_history then
    "\n### Think:\n".data ++ h.thought ++ "\n".data else [])
  ++ (if h.flags.use_action_history then
    "\n### Action:\n".data ++ h.action ++ "\n".data else [])
  ++ h.error.prompt ++ h.html_diff.prompt ++ h.ax_tree_diff.prompt
  ++ (match h.memory with
      | some m => "\n### Memory:\n".data ++ m ++ "\n".data
      | none => [])

/-- `HistoryStep.prompt`: `HistoryStep` is always visible. -/
def HistoryStepS.prompt (h : HistoryStepS) : Chars := h.promptBody

/-- The state of the `History` composite: its visibility predicate
(`lambda: flags.use_history`) and its steps. -/
structure HistoryS where
  visible : VisSpec
  shrink_speed : ℤ
  history_steps : List HistoryStepS

/-- `History.shrink`: shrink every step. -/
def HistoryS.shrink (h : HistoryS) : HistoryS :=
  { h with history_steps := h.history_steps.map HistoryStepS.shrink }

/-- `History._prompt`. -/
def HistoryS.promptBody (h : HistoryS) : Chars :=
  joinNl ("# History of interaction with the task:\n".data ::
    (h.history_steps.enum.map fun st =>
      ["## step ".data ++ natDigits st.1, st.2.prompt]).flatten) ++ "\n".data

/-- `History.prompt` (inherited `_hide` gating). -/
def HistoryS.prompt (h : HistoryS) : Chars :=
  if h.visible.eval then h.promptBody else []

/-! ## Lemmas: literal search -/

theorem hasPrefixA_append_self (p b : Chars) : hasPrefixA p (p ++ b) = true := by
  induction p with
  | nil => rfl
  | cons c cs ih => simpa [hasPrefixA] using ih

theorem append_drop_of_hasPrefixA {pat s : Chars} (h : hasPrefixA pat s = true) :
    s = pat ++ s.drop pat.length := by
  induction pat generalizing s with
  | nil => simp
  | cons p ps ih =>
    cases s with
    | nil => simp [hasPrefixA] at h
    | cons c cs =>
      simp only [hasPrefixA, Bool.and_eq_true, beq_iff_eq] at h
      obtain ⟨rfl, h2⟩ := h
      simpa [List.drop] using ih h2

theorem splitOnce_nil (pat : Chars) : splitOnce pat [] = none := rfl

theorem splitOnce_eq {pat s a b : Chars} (h : splitOnce pat s = some (a, b)) :
    s = a ++ pat ++ b := by
  induction s generalizing a b with
  | nil => simp [splitOnce] at h
  | cons c rest ih =>
    rw [splitOnce] at h
    split at h
    · rename_i hp
      obtain ⟨rfl, rfl⟩ := Prod.mk.injEq .. ▸ Option.some.injEq .. ▸ h
      simpa using append_drop_of_hasPrefixA hp
    · revert h
      cases hsp : splitOnce pat rest with
      | none => intro h; cases h
      | some pr =>
        intro h
        obtain ⟨a', b'⟩ := pr
        obtain ⟨rfl, rfl⟩ := Prod.mk.injEq .. ▸ Option.some.injEq .. ▸ h
        simpa using ih hsp

theorem splitOnce_first {pat a b : Chars} (hpat : pat ≠ [])
    (hne : noEarlyMatchB pat a (pat ++ b) = true) :
    splitOnce pat (a ++ (pat ++ b)) = some (a, b) := by
  induction a with
  | nil =>
    obtain ⟨p, ps, rfl⟩ : ∃ p ps, pat = p :: ps := by
      cases pat with
      | nil => exact absurd rfl hpat
      | cons p ps => exact ⟨p, ps, rfl⟩
    rw [List.nil_append, List.cons_append, splitOnce]
    rw [if_pos (by simpa using hasPrefixA_append_self (p :: ps) b)]
    simp
  | cons c a' ih =>
    simp only [noEarlyMatchB, Bool.and_eq_true, Bool.not_eq_true'] at hne
    obtain ⟨hnp, hne'⟩ := hne
    rw [List.cons_append, splitOnce, if_neg (by simp [hnp]), ih hne']

theorem tagLoop_congr {openT closeT : Chars} (hop : openT ≠ []) :
    ∀ fuel fuel' s, s.length ≤ fuel → s.length ≤ fuel' →
      tagLoop openT closeT fuel s = tagLoop openT closeT fuel' s := by
  intro fuel
  induction fuel with
  | zero =>
    intro fuel' s hs _
    obtain rfl : s = [] := List.eq_nil_of_length_eq_zero (Nat.le_zero.mp hs)
    cases fuel' with
    | zero => rfl
    | succ k => simp [tagLoop, splitOnce_nil]
  | succ k ih =>
    intro fuel' s hs hs'
    cases fuel' with
    | zero =>
      obtain rfl : s = [] := List.eq_nil_of_length_eq_zero (Nat.le_zero.mp hs')
      simp [tagLoop, splitOnce_nil]
    | succ k' =>
      rw [tagLoop, tagLoop]
      cases h12 : (splitOnce openT s).bind (fun pr => splitOnce closeT pr.2) with
      | none => rfl
      | some pr =>
        obtain ⟨content, rest⟩ := pr
        obtain ⟨⟨a1, afterOpen⟩, h1, h2⟩ := Option.bind_eq_some.mp h12
        have e1 := splitOnce_eq h1
        have e2 := splitOnce_eq h2
        have hlen : rest.length + 1 ≤ s.length := by
          have hop1 : 1 ≤ openT.length := by
            cases openT with
            | nil => exact absurd rfl hop
            | cons _ _ => simp
          simp only at e2
          rw [e1, e2]
          simp only [List.length_append]
          omega
        exact congrArg (content :: ·) (ih k' rest (by omega) (by omega))

theorem openTag_ne_nil (key : Chars) : openTag key ≠ [] := by simp [openTag]

theorem closeTag_ne_nil (key : Chars) : closeTag key ≠ [] := by simp [closeTag]

theorem tagLoop_step {oT cT a c b : Chars} (hoT : oT ≠ []) (hcT : cT ≠ [])
    (h1 : noEarlyMatchB oT a (oT ++ (c ++ (cT ++ b))) = true)
    (h2 : noEarlyMatchB cT c (cT ++ b) = true) (k : ℕ) :
    tagLoop oT cT (k + 1) (a ++ (oT ++ (c ++ (cT ++ b)))) = c :: tagLoop oT cT k b := by
  rw [tagLoop, splitOnce_first hoT h1]
  simp only [Option.some_bind]
  rw [splitOnce_first hcT h2]

/-- The structural extraction property: when the opening tag first occurs
right after `a` and the closing tag first occurs right after `c`, the scan
captures `c` and continues on `b`. -/
theorem tagContents_split {key a c b : Chars}
    (h1 : noEarlyMatchB (openTag key) a (openTag key ++ (c ++ (closeTag key ++ b))) = true)
    (h2 : noEarlyMatchB (closeTag key) c (closeTag key ++ b) = true) :
    tagContents key (a ++ (openTag key ++ (c ++ (closeTag key ++ b))))
      = c :: tagContents key b := by
  unfold tagContents
  set s := a ++ (openTag key ++ (c ++ (closeTag key ++ b))) with hs
  have hlen : b.length + 1 ≤ s.length := by
    have : 1 ≤ (openTag key).length := by simp [openTag]
    rw [hs]; simp only [List.length_append]; omega
  obtain ⟨m, hm⟩ : ∃ m, s.length = m + 1 := ⟨s.length - 1, by omega⟩
  rw [hm, tagLoop_step (openTag_ne_nil key) (closeTag_ne_nil key) h1 h2]
  rw [tagLoop_congr (openTag_ne_nil key) m b.length b (by omega) le_rfl]

/-! ## Lemmas: decimal rendering -/

theorem natDigitsAux_shape : ∀ (fuel n : ℕ) (acc : Chars),
    ∃ pre, natDigitsAux fuel n acc = pre ++ acc ∧ ∀ c ∈ pre, ∃ d, c = digitChar d := by
  intro fuel
  induction fuel with
  | zero => exact fun n acc => ⟨[], rfl, by simp⟩
  | succ f ih =>
    intro n acc
    rw [natDigitsAux]
    split
    · exact ⟨[], rfl, by simp⟩
    · obtain ⟨pre, hpre, hmem⟩ := ih (n / 10) (digitChar (n % 10) :: acc)
      refine ⟨pre ++ [digitChar (n % 10)], by simpa using hpre, ?_⟩
      intro ch hch
      rcases List.mem_append.mp hch with h | h
      · exact hmem ch h
      · exact ⟨n % 10, by simpa using h⟩

theorem digitChar_cases (d : ℕ) :
    digitChar d ∈ ['0', '1', '2', '3', '4', '5', '6', '7', '8', '9'] := by
  match d with
  | 0 | 1 | 2 | 3 | 4 | 5 | 6 | 7 | 8 => decide
  | n + 9 => exact show '9' ∈ _ by decide

theorem natDigits_shape (n : ℕ) :
    ∃ d t, natDigits n = digitChar d :: t ∧ ∀ c ∈ t, ∃ e, c = digitChar e := by
  rw [natDigits]
  split
  · exact ⟨0, [], rfl, by simp⟩
  · rename_i hn
    obtain ⟨m, rfl⟩ : ∃ m, n = m + 1 := ⟨n - 1, by omega⟩
    rw [natDigitsAux, if_neg hn]
    obtain ⟨pre, hpre, hmem⟩ :=
      natDigitsAux_shape m ((m + 1) / 10) [digitChar ((m + 1) % 10)]
    rw [hpre]
    cases pre with
    | nil => exact ⟨(m + 1) % 10, [], rfl, by simp⟩
    | cons c0 pres =>
      obtain ⟨d0, hd0⟩ := hmem c0 (by simp)
      refine ⟨d0, pres ++ [digitChar ((m + 1) % 10)], by simp [hd0], ?_⟩
      intro ch hch
      rcases List.mem_append.mp hch with h | h
      · exact hmem ch (by simp [h])
      · exact ⟨(m + 1) % 10, by simpa using h⟩

theorem natDigits_chars (n : ℕ) : ∀ c ∈ natDigits n, ∃ d, c = digitChar d := by
  obtain ⟨d, t, ht, hmem⟩ := natDigits_shape n
  intro c hc
  rw [ht] at hc
  rcases List.mem_cons.mp hc with h | h
  · exact ⟨d, h⟩
  · exact hmem c h

theorem nl_not_mem_natDigits (n : ℕ) : '\n' ∉ natDigits n := by
  intro h
  obtain ⟨d, hd⟩ := natDigits_chars n '\n' h
  have := digitChar_cases d
  rw [← hd] at this
  simp at this

theorem nl_not_mem_intDigits (i : ℤ) : '\n' ∉ intDigits i := by
  rw [intDigits]
  split
  · intro h
    rcases List.mem_cons.mp h with h | h
    · cases h
    · exact nl_not_mem_natDigits _ h
  · exact nl_not_mem_natDigits _

/-! ## Lemmas: line splitting and joining -/

theorem splitOnNl_ne_nil (s : Chars) : splitOnNl s ≠ [] := by
  cases s with
  | nil => simp [splitOnNl]
  | cons c rest =>
    rw [splitOnNl]
    split
    · simp
    · cases h : splitOnNl rest <;> simp

theorem nl_not_mem_splitOnNl (s : Chars) : ∀ l ∈ splitOnNl s, '\n' ∉ l := by
  induction s with
  | nil =>
    intro l hl
    simp only [splitOnNl, List.mem_singleton] at hl
    simp [hl]
  | cons c rest ih =>
    intro l hl
    rw [splitOnNl] at hl
    split at hl
    · rcases List.mem_cons.mp hl with rfl | h
      · simp
      · exact ih l h
    · rename_i hc
      revert hl
      cases hsp : splitOnNl rest with
      | nil => exact absurd hsp (splitOnNl_ne_nil rest)
      | cons l0 ls =>
        intro hl
        rcases List.mem_cons.mp hl with rfl | h
        · intro hmem
          rcases List.mem_cons.mp hmem with h' | h'
          · exact hc h'.symm
          · exact ih l0 (by rw [hsp]; exact List.mem_cons_self l0 ls) h'
        · exact ih l (by rw [hsp]; exact List.mem_cons_of_mem _ h)

theorem splitOnNl_no_nl (l : Chars) (h : '\n' ∉ l) : splitOnNl l = [l] := by
  induction l with
  | nil => rfl
  | cons c l' ih =>
    rw [splitOnNl, if_neg (fun hc => h (by simp [hc])),
      ih (fun hm => h (List.mem_cons_of_mem _ hm))]

theorem splitOnNl_append_cons (a : Chars) (ha : '\n' ∉ a) (s : Chars) (h t' : _)
    (hs : splitOnNl s = h :: t') : splitOnNl (a ++ s) = (a ++ h) :: t' := by
  induction a with
  | nil => simpa using hs
  | cons c a' ih =>
    rw [List.cons_append, splitOnNl, if_neg (fun hc => ha (by simp [hc])),
      ih (fun hm => ha (List.mem_cons_of_mem _ hm))]
    simp

theorem joinNl_cons_cons (l l2 : Chars) (ls : List Chars) :
    joinNl (l :: l2 :: ls) = l ++ '\n' :: joinNl (l2 :: ls) := rfl

theorem joinNl_append_last (ls : List Chars) (hls : ls ≠ []) (m : Chars) :
    joinNl (ls ++ [m]) = joinNl ls ++ '\n' :: m := by
  induction ls with
  | nil => cases hls rfl
  | cons l ls' ih =>
    cases ls' with
    | nil => rfl
    | cons l2 ls'' =>
      calc joinNl ((l :: l2 :: ls'') ++ [m])
          = l ++ '\n' :: joinNl ((l2 :: ls'') ++ [m]) := rfl
        _ = l ++ '\n' :: (joinNl (l2 :: ls'') ++ '\n' :: m) := by rw [ih (by simp)]
        _ = joinNl (l :: l2 :: ls'') ++ '\n' :: m := by
            rw [joinNl_cons_cons, List.append_assoc]
            simp

theorem splitOnNl_joinNl (ls : List Chars) (hne : ls ≠ [])
    (h : ∀ l ∈ ls, '\n' ∉ l) : splitOnNl (joinNl ls) = ls := by
  induction ls with
  | nil => cases hne rfl
  | cons l ls' ih =>
    cases ls' with
    | nil => exact splitOnNl_no_nl l (h l (by simp))
    | cons l2 ls'' =>
      rw [joinNl_cons_cons]
      have hrec : splitOnNl (joinNl (l2 :: ls'')) = l2 :: ls'' :=
        ih (by simp) (fun x hx => h x (List.mem_cons_of_mem _ hx))
      have h2 : splitOnNl ('\n' :: joinNl (l2 :: ls'')) = [] :: l2 :: ls'' := by
        rw [splitOnNl, if_pos rfl, hrec]
      have h3 := splitOnNl_append_cons l (h l (by simp)) _ _ _ h2
      simpa using h3

theorem pySplitlines_of_ne_nil {s : Chars} (hs : s ≠ []) :
    pySplitlines s =
      if (splitOnNl s).getLast? = some [] then (splitOnNl s).dropLast
      else splitOnNl s := by
  cases s with
  | nil => cases hs rfl
  | cons c rest => rfl

theorem pySplitlines_join_marker (ls : List Chars) (hne : ls ≠ [])
    (hnl : ∀ l ∈ ls, '\n' ∉ l) (m : Chars) (hm : m ≠ []) (hmnl : '\n' ∉ m) :
    pySplitlines (joinNl ls ++ '\n' :: m) = ls ++ [m] := by
  rw [show joinNl ls ++ '\n' :: m = joinNl (ls ++ [m]) from (joinNl_append_last ls hne m).symm]
  have hsp : splitOnNl (joinNl (ls ++ [m])) = ls ++ [m] := by
    refine splitOnNl_joinNl _ (by simp) ?_
    intro x hx
    rcases List.mem_append.mp hx with h | h
    · exact hnl x h
    · rw [List.mem_singleton.mp h]; exact hmnl
  have hjoin_ne : joinNl (ls ++ [m]) ≠ [] := by
    obtain ⟨a, as, rfl⟩ : ∃ a as, ls = a :: as := by
      cases ls with
      | nil => cases hne rfl
      | cons a as => exact ⟨a, as, rfl⟩
    cases as with
    | nil => simp [joinNl]
    | cons b bs => simp [joinNl_cons_cons]
  rw [pySplitlines_of_ne_nil hjoin_ne, hsp]
  rw [if_neg (by simp [List.getLast?_append, hm])]

/-! ## Lemmas: Python `int()` truncation -/

theorem pyInt_of_nonneg {q : ℚ} (h : 0 ≤ q) : pyInt q = ⌊q⌋ := if_pos h

theorem pyInt_le_natCast {q : ℚ} {n : ℕ} (h : q ≤ (n : ℚ)) : pyInt q ≤ (n : ℤ) := by
  rw [pyInt]
  split
  · calc ⌊q⌋ ≤ ⌊((n : ℚ))⌋ := Int.floor_le_floor h
    _ = (n : ℤ) := by exact_mod_cast Int.floor_natCast n
  · rename_i hq
    push_neg at hq
    have : 0 ≤ ⌊-q⌋ := Int.floor_nonneg.mpr (by linarith)
    omega

theorem pyInt_nonneg {q : ℚ} (h : 0 ≤ q) : 0 ≤ pyInt q := by
  rw [pyInt_of_nonneg h]
  exact Int.floor_nonneg.mpr h

/-! ## Lemmas: `Trunkater.shrink` -/

theorem trunk_shrink_calls (t : TrunkaterS) :
    t.shrink.shrink_calls = t.shrink_calls + 1 := by
  rw [TrunkaterS.shrink]; split <;> rfl

theorem trunk_shrink_visible (t : TrunkaterS) : t.shrink.visible = t.visible := by
  rw [TrunkaterS.shrink]; split <;> rfl

theorem trunk_shrink_speed_const (t : TrunkaterS) :
    t.shrink.shrink_speed = t.shrink_speed := by
  rw [TrunkaterS.shrink]; split <;> rfl

theorem trunk_deleted_mono (t : TrunkaterS) (h : 0 ≤ t.shrink_speed) :
    t.deleted_lines ≤ t.shrink.deleted_lines := by
  rw [TrunkaterS.shrink]
  split
  · simp only
    have hle : pyInt (((pySplitlines t.pBody).length : ℚ) * (1 - t.shrink_speed))
        ≤ ((pySplitlines t.pBody).length : ℤ) := by
      refine pyInt_le_natCast ?_
      have hn : (0 : ℚ) ≤ ((pySplitlines t.pBody).length : ℚ) := by positivity
      nlinarith
    omega
  · exact le_rfl

theorem trunk_shrink_pre_grace (t : TrunkaterS)
    (h : ¬(t.is_visible = true ∧ t.start_trunkate_iteration ≤ t.shrink_calls)) :
    t.shrink = { t with shrink_calls := t.shrink_calls + 1 } := by
  rw [TrunkaterS.shrink, if_neg h]

theorem trunk_shrink_post_grace (t : TrunkaterS) (hv : t.is_visible = true)
    (hg : t.start_trunkate_iteration ≤ t.shrink_calls) :
    t.shrink = { t with
      deleted_lines := t.deleted_lines + (((pySplitlines t.pBody).length : ℤ)
        - pyInt (((pySplitlines t.pBody).length : ℚ) * (1 - t.shrink_speed))),
      pBody := joinNl (pySliceTo (pySplitlines t.pBody)
          (pyInt (((pySplitlines t.pBody).length : ℚ) * (1 - t.shrink_speed))))
        ++ '\n' :: trunkMarker (t.deleted_lines + (((pySplitlines t.pBody).length : ℤ)
          - pyInt (((pySplitlines t.pBody).length : ℚ) * (1 - t.shrink_speed)))),
      shrink_calls := t.shrink_calls + 1 } := by
  rw [TrunkaterS.shrink, if_pos ⟨hv, hg⟩]

/-! ## Lemmas: `Diff.shrink` and `Diff._prompt` -/

theorem diffS_shrink_ceiling (d : DiffS) :
    d.shrink.max_line_diff = max 1 (d.max_line_diff - d.shrink_speed) := rfl

theorem diffS_shrink_ge_one (d : DiffS) : 1 ≤ d.shrink.max_line_diff :=
  le_max_left _ _

theorem diffS_shrink_mono (d : DiffS) (h0 : 0 ≤ d.shrink_speed)
    (h1 : 1 ≤ d.max_line_diff) : d.shrink.max_line_diff ≤ d.max_line_diff := by
  rw [diffS_shrink_ceiling]
  omega

theorem diffS_promptBody_within (d : DiffS)
    (h : (d.diff_lines.length : ℤ) ≤ d.max_line_diff) :
    d.promptBody = d.pfx ++ d.header ++ '\n' :: (joinNl d.diff_lines ++ ['\n']) := by
  rw [DiffS.promptBody]
  have h0 : 0 ≤ d.max_line_diff := le_trans (by positivity) h
  have htake : pySliceTo d.diff_lines d.max_line_diff = d.diff_lines := by
    rw [pySliceTo, if_pos h0]
    exact List.take_of_length_le (by omega)
  rw [htake, if_neg (by omega)]

theorem diffS_promptBody_over (d : DiffS) (h0 : 0 ≤ d.max_line_diff)
    (h : d.max_line_diff < (d.diff_lines.length : ℤ)) :
    d.promptBody = d.pfx ++ d.header ++ '\n' ::
      ((joinNl (d.diff_lines.take d.max_line_diff.toNat)
        ++ '\n' :: diffNotice ((d.diff_lines.length : ℤ) - d.max_line_diff)) ++ ['\n']) := by
  rw [DiffS.promptBody]
  rw [pySliceTo, if_pos h0, if_pos (by omega)]

/-! ## Lemmas: the retry loop -/

theorem retryGo_rateLimit {α} (prs : Chars → α × Bool × Chars) (n : ℕ) (minW maxW : ℚ)
    (err : Chars) (rest : List ChatOutcome) (msgs : List Turn) (tries : ℕ) (delay : ℚ)
    (sleeps : List ℚ) (inv : ℕ) (h1 : tries < n) (h2 : delay < maxW) :
    retryGo prs n minW maxW (ChatOutcome.rateLimit err :: rest) msgs tries delay sleeps inv =
      if maxW ≤ delay + extract_wait_time err minW then
        ⟨.rateLimitError err, msgs, sleeps ++ [extract_wait_time err minW], inv + 1⟩
      else
        retryGo prs n minW maxW rest msgs tries (delay + extract_wait_time err minW)
          (sleeps ++ [extract_wait_time err minW]) (inv + 1) := by
  rw [retryGo, if_pos (show tries < n ∧ delay < maxW from ⟨h1, h2⟩)]

theorem retryGo_reply {α} (prs : Chars → α × Bool × Chars) (n : ℕ) (minW maxW : ℚ)
    (content : Chars) (rest : List ChatOutcome) (msgs : List Turn) (tries : ℕ) (delay : ℚ)
    (sleeps : List ℚ) (inv : ℕ) (h1 : tries < n) (h2 : delay < maxW) :
    retryGo prs n minW maxW (ChatOutcome.reply content :: rest) msgs tries delay sleeps inv =
      if (prs content).2.1 then
        ⟨.success (prs content).1, msgs ++ [Turn.assistant content], sleeps, inv + 1⟩
      else
        retryGo prs n minW maxW rest
          (msgs ++ [Turn.assistant content, Turn.human (prs content).2.2])
          (tries + 1) delay sleeps (inv + 1) := by
  rw [retryGo, if_pos (show tries < n ∧ delay < maxW from ⟨h1, h2⟩)]

theorem retryGo_stop {α} (prs : Chars → α × Bool × Chars) (n : ℕ) (minW maxW : ℚ)
    (outcomes : List ChatOutcome) (msgs : List Turn) (tries : ℕ) (delay : ℚ)
    (sleeps : List ℚ) (inv : ℕ) (h : ¬(tries < n ∧ delay < maxW)) :
    retryGo prs n minW maxW outcomes msgs tries delay sleeps inv =
      ⟨.retryError (retryErrMsg n), msgs, sleeps, inv⟩ := by
  cases outcomes with
  | nil => rw [retryGo, if_neg h]
  | cons o rest =>
    cases o with
    | rateLimit err => rw [retryGo, if_neg h]
    | reply content => rw [retryGo, if_neg h]

theorem retryGo_always_fail {α} (prs : Chars → α × Bool × Chars)
    (hfail : ∀ c, (prs c).2.1 = false) (n : ℕ) (minW maxW : ℚ) (hmw : 0 < maxW) :
    ∀ (replies : List Chars) (msgs : List Turn) (tries : ℕ) (sleeps : List ℚ) (inv : ℕ),
      tries ≤ n → n - tries ≤ replies.length →
      (retryGo prs n minW maxW (replies.map ChatOutcome.reply) msgs tries 0 sleeps inv).result
          = .retryError (retryErrMsg n)
      ∧ (retryGo prs n minW maxW (replies.map ChatOutcome.reply)
          msgs tries 0 sleeps inv).invocations = inv + (n - tries) := by
  intro replies
  induction replies with
  | nil =>
    intro msgs tries sleeps inv h1 h2
    have htn : tries = n := by simp at h2; omega
    rw [retryGo_stop prs n minW maxW _ _ _ _ _ _ (by omega)]
    exact ⟨rfl, by simp [htn]⟩
  | cons r rs ih =>
    intro msgs tries sleeps inv h1 h2
    by_cases htr : tries < n
    · rw [List.map_cons, retryGo_reply prs n minW maxW r _ _ _ _ _ _ htr hmw,
        if_neg (by simp [hfail r])]
      obtain ⟨hr, hi⟩ := ih (msgs ++ [Turn.assistant r, Turn.human (prs r).2.2])
        (tries + 1) sleeps (inv + 1) (by omega) (by simp at h2 ⊢; omega)
      exact ⟨hr, by omega⟩
    · have htn : tries = n := by omega
      rw [retryGo_stop prs n minW maxW _ _ _ _ _ _ (by omega)]
      exact ⟨rfl, by simp [htn]⟩

/-! ## Lemmas: the fitting loop -/

theorem fitLoop_succ_isSome {σ : Type _} (render : σ → Fragment) (sf : σ → σ)
    (c cd : Chars → ℕ) (mt k : ℕ) (s : σ) : (fitLoop render sf c cd mt (k + 1) s).isSome = true := by
  rw [fitLoop]
  split
  · rfl
  · cases h : fitLoop render sf c cd mt k (sf s) with
    | none => simp [h]
    | some r => simp [h]

theorem fitLoop_over {σ : Type _} (render : σ → Fragment) (sf : σ → σ)
    (c cd : Chars → ℕ) (mt k : ℕ) (s : σ) (h : mt < c (fragmentText (render s))) :
    fitLoop render sf c cd mt (k + 2) s = fitLoop render sf c cd mt (k + 1) (sf s) := by
  rw [show k + 2 = (k + 1) + 1 from rfl, fitLoop, if_neg (by omega)]
  cases hh : fitLoop render sf c cd mt (k + 1) (sf s) with
  | none =>
    have := fitLoop_succ_isSome render sf c cd mt k (sf s)
    rw [hh] at this
    cases this
  | some r => simp [hh]

theorem fitLoop_exhaust {σ : Type _} (render : σ → Fragment) (sf : σ → σ)
    (c cd : Chars → ℕ) (mt : ℕ) :
    ∀ n s, 1 ≤ n → (∀ j < n, mt < c (fragmentText (render (sf^[j] s)))) →
      fitLoop render sf c cd mt n s =
        some ⟨render (sf^[n - 1] s), some (cd (fragmentText (render (sf^[n - 1] s))))⟩ := by
  intro n
  induction n with
  | zero => omega
  | succ k ih =>
    intro s _ hover
    cases k with
    | zero =>
      have h0 := hover 0 (by omega)
      simp only [Function.iterate_zero_apply] at h0
      rw [fitLoop, if_neg (by omega)]
      simp [fitLoop]
    | succ k' =>
      have h0 := hover 0 (by omega)
      simp only [Function.iterate_zero_apply] at h0
      rw [show k' + 1 + 1 = (k' + 1) + 1 from rfl, fitLoop, if_neg (by omega)]
      have hrec := ih (sf s) (by omega) (fun j hj => by
        have := hover (j + 1) (by omega)
        rwa [Function.iterate_succ_apply] at this)
      rw [hrec]
      simp [Function.iterate_succ_apply]

/-! ## Lemmas: the content dict and the validation loop -/

theorem dictGet_dictSet (d : PyDict) (k0 k : Chars) (v : PyVal) :
    dictGet (dictSet d k0 v) k = if k0 = k then some v else dictGet d k := by
  induction d with
  | nil => rfl
  | cons hd rest ih =>
    obtain ⟨k1, v1⟩ := hd
    by_cases h1 : k1 = k0
    · subst h1
      rw [dictSet, if_pos rfl, dictGet]
      by_cases h2 : k1 = k
      · rw [if_pos h2, if_pos h2]
      · rw [if_neg h2, if_neg h2, dictGet, if_neg h2]
    · rw [dictSet, if_neg h1, dictGet]
      by_cases h2 : k1 = k
      · rw [if_pos h2, if_neg (fun hc => h1 (h2 ▸ hc).symm), dictGet, if_pos h2]
      · rw [if_neg h2, ih, dictGet, if_neg h2]

theorem dictGet_extract_fold (text : Chars) :
    ∀ (ks : List Chars) (d : PyDict) (k : Chars),
      dictGet (ks.foldl (fun d key =>
        match extractKey text key with
        | [] => d
        | v :: vs => dictSet d key (PyVal.vList (v :: vs))) d) k
      = if k ∈ ks ∧ extractKey text k ≠ [] then
          some (PyVal.vList (extractKey text k))
        else dictGet d k := by
  intro ks
  induction ks with
  | nil => intro d k; simp
  | cons k0 rest ih =>
    intro d k
    rw [List.foldl_cons, ih]
    by_cases hmem : k ∈ rest ∧ extractKey text k ≠ []
    · rw [if_pos hmem, if_pos ⟨List.mem_cons_of_mem _ hmem.1, hmem.2⟩]
    · rw [if_neg hmem]
      cases hx0 : extractKey text k0 with
      | nil =>
        show dictGet d k = if k ∈ k0 :: rest ∧ extractKey text k ≠ [] then
            some (PyVal.vList (extractKey text k))
          else dictGet d k
        by_cases hk : k ∈ k0 :: rest ∧ extractKey text k ≠ []
        · exfalso
          rcases List.mem_cons.mp hk.1 with h | h
          · exact hk.2 (h ▸ hx0)
          · exact hmem ⟨h, hk.2⟩
        · rw [if_neg hk]
      | cons v vs =>
        show dictGet (dictSet d k0 (PyVal.vList (v :: vs))) k
            = if k ∈ k0 :: rest ∧ extractKey text k ≠ [] then
                some (PyVal.vList (extractKey text k))
              else dictGet d k
        rw [dictGet_dictSet]
        by_cases hk0 : k0 = k
        · subst hk0
          rw [if_pos rfl, if_pos ⟨List.mem_cons_self k0 rest, by rw [hx0]; simp⟩, hx0]
        · rw [if_neg hk0]
          by_cases hk : k ∈ k0 :: rest ∧ extractKey text k ≠ []
          · exfalso
            rcases List.mem_cons.mp hk.1 with h | h
            · exact hk0 h.symm
            · exact hmem ⟨h, hk.2⟩
          · rw [if_neg hk]

theorem parseLoop_nodup (text : Chars) (opt : List Chars) (mm : Bool) :
    ∀ (todo : List Chars) (d : PyDict) (ms : List Chars),
      todo.Nodup →
      (∀ k ∈ todo, dictGet d k = (match extractKey text k with
        | [] => none
        | v :: vs => some (PyVal.vList (v :: vs)))) →
      ∃ dF, parseLoop opt mm todo d ms
          = .ok (dF, ms ++ (todo.map (keyMsgs text opt mm)).flatten)
        ∧ (∀ k, k ∉ todo → dictGet dF k = dictGet d k)
        ∧ (∀ k ∈ todo, dictGet dF k = (match extractKey text k with
            | [] => none
            | v :: vs => some (PyVal.vStr (if mm then joinNl (v :: vs) else v)))) := by
  intro todo
  induction todo with
  | nil =>
    intro d ms _ _
    exact ⟨d, by simp [parseLoop], fun k _ => rfl,
      fun k hk => absurd hk (List.not_mem_nil k)⟩
  | cons key rest ih =>
    intro d ms hnd hinv
    have hkey := hinv key (List.mem_cons_self key rest)
    have hknr : key ∉ rest := (List.nodup_cons.mp hnd).1
    have hndr : rest.Nodup := (List.nodup_cons.mp hnd).2
    have hcont : ∀ d' : PyDict,
        parseStep opt mm d ms key = .ok (d', ms ++ keyMsgs text opt mm key) →
        (∀ k, k ≠ key → dictGet d' k = dictGet d k) →
        dictGet d' key = (match extractKey text key with
          | [] => none
          | v :: vs => some (PyVal.vStr (if mm then joinNl (v :: vs) else v))) →
        ∃ dF, parseLoop opt mm (key :: rest) d ms
            = .ok (dF, ms ++ ((key :: rest).map (keyMsgs text opt mm)).flatten)
          ∧ (∀ k, k ∉ key :: rest → dictGet dF k = dictGet d k)
          ∧ (∀ k ∈ key :: rest, dictGet dF k = (match extractKey text k with
              | [] => none
              | v :: vs => some (PyVal.vStr (if mm then joinNl (v :: vs) else v)))) := by
      intro d' hstep hsame hkeyv
      obtain ⟨dF, hrun, hout, hin⟩ := ih d' (ms ++ keyMsgs text opt mm key) hndr
        (fun k hk => by
          rw [hsame k (fun hc => hknr (hc ▸ hk))]
          exact hinv k (List.mem_cons_of_mem _ hk))
      refine ⟨dF, ?_, ?_, ?_⟩
      · simp only [parseLoop, hstep, hrun, List.map_cons, List.flatten_cons,
          List.append_assoc]
      · intro k hk
        have h1 : k ∉ rest := fun hr => hk (List.mem_cons_of_mem _ hr)
        have h2 : k ≠ key := fun hc => hk (hc ▸ List.mem_cons_self key rest)
        rw [hout k h1, hsame k h2]
      · intro k hk
        rcases List.mem_cons.mp hk with rfl | hkr
        · rw [hout k hknr, hkeyv]
        · exact hin k hkr
    cases hx : extractKey text key with
    | nil =>
      rw [hx] at hkey
      refine hcont d ?_ (fun k _ => rfl) (by rw [hkey, hx])
      rw [keyMsgs, hx]
      by_cases ho : key ∈ opt
      · simp [parseStep, hkey, ho]
      · simp [parseStep, hkey, ho]
    | cons v vs =>
      rw [hx] at hkey
      cases vs with
      | nil =>
        refine hcont (dictSet d key (PyVal.vStr v)) ?_ ?_ ?_
        · rw [keyMsgs, hx]
          simp [parseStep, hkey, pyIndex0, pyValLen]
        · intro k hk
          rw [dictGet_dictSet, if_neg (fun hc => hk hc.symm)]
        · rw [dictGet_dictSet, if_pos rfl, hx]
          cases mm <;> rfl
      | cons v2 vs2 =>
        cases mm with
        | false =>
          refine hcont (dictSet d key (PyVal.vStr v)) ?_ ?_ ?_
          · rw [keyMsgs, hx]
            simp [parseStep, hkey, pyIndex0, pyValLen]
          · intro k hk
            rw [dictGet_dictSet, if_neg (fun hc => hk hc.symm)]
          · rw [dictGet_dictSet, if_pos rfl, hx]
            exact rfl
        | true =>
          refine hcont (dictSet (dictSet d key (PyVal.vStr v)) key
              (PyVal.vStr (joinNl (v :: v2 :: vs2)))) ?_ ?_ ?_
          · rw [keyMsgs, hx]
            simp [parseStep, hkey, pyIndex0, pyValLen, pyJoin]
          · intro k hk
            rw [dictGet_dictSet, if_neg (fun hc => hk hc.symm),
              dictGet_dictSet, if_neg (fun hc => hk hc.symm)]
          · rw [dictGet_dictSet, if_pos rfl, hx]
            exact rfl

theorem parse_html_tags_spec (text : Chars) (keys opt : List Chars) (mm : Bool)
    (hnd : (keys ++ opt).Nodup) :
    ∃ d, parse_html_tags text keys opt mm
        = .ok (d, (parseMsgs text keys opt mm).isEmpty,
            joinNl (parseMsgs text keys opt mm))
      ∧ (∀ k ∈ keys ++ opt, dictGet d k = (match extractKey text k with
          | [] => none
          | v :: vs => some (PyVal.vStr (if mm then joinNl (v :: vs) else v))))
      ∧ (∀ k, k ∉ keys ++ opt → dictGet d k = none) := by
  have hinv : ∀ k ∈ keys ++ opt,
      dictGet (extract_html_tags text (keys ++ opt)) k
        = (match extractKey text k with
          | [] => none
          | v :: vs => some (PyVal.vList (v :: vs))) := by
    intro k hk
    rw [extract_html_tags, dictGet_extract_fold]
    by_cases hx : extractKey text k = []
    · rw [if_neg (fun hc => hc.2 hx), hx]
      exact rfl
    · rw [if_pos ⟨hk, hx⟩]
      obtain ⟨v, vs, hvvs⟩ : ∃ v vs, extractKey text k = v :: vs := by
        cases hxx : extractKey text k with
        | nil => exact absurd hxx hx
        | cons a b => exact ⟨a, b, rfl⟩
      rw [hvvs]
  obtain ⟨dF, hrun, hout, hin⟩ := parseLoop_nodup text opt mm (keys ++ opt)
    (extract_html_tags text (keys ++ opt)) [] hnd hinv
  refine ⟨dF, ?_, hin, ?_⟩
  · simp only [parse_html_tags, hrun, List.nil_append, parseMsgs]
  · intro k hk
    rw [hout k hk, extract_html_tags, dictGet_extract_fold,
      if_neg (fun hc => hk hc.1)]
    rfl

/-- The dict-mutation aliasing of the source on duplicated keys, reproduced
by the model: a key listed both as required and optional re-processes its
own string value, so its first character is kept (with a spurious
multiplicity message when `merge_multiple` is off, or the characters
newline-joined when it is on), and an empty stripped capture raises
`IndexError` on the second pass. -/
theorem parse_html_tags_aliasing :
    parse_html_tags "<action>click</action>".data ["action".data] ["action".data] false
      = .ok ([("action".data, PyVal.vStr "c".data)], false, multiple_msg "action".data)
    ∧ parse_html_tags "<action>click</action>".data ["action".data] ["action".data] true
      = .ok ([("action".data, PyVal.vStr "c\nl\ni\nc\nk".data)], true, [])
    ∧ parse_html_tags "<a> </a>".data ["a".data, "a".data] [] false
      = .error .indexError :=
  ⟨by decide, by decide, by decide⟩

theorem mem_parseMsgs {text : Chars} {keys opt : List Chars} {mm : Bool}
    {key msg : Chars} (hk : key ∈ keys ++ opt)
    (hm : msg ∈ keyMsgs text opt mm key) : msg ∈ parseMsgs text keys opt mm := by
  rw [parseMsgs]
  exact List.mem_flatten.mpr ⟨_, List.mem_map_of_mem _ hk, hm⟩

theorem diffFn_none {new : Option Chars} (h : (none : Option Chars) ≠ new) :
    diffFn none new = .error .typeError := by
  rw [diffFn.eq_def, if_neg h]

theorem diffFn_some_none {p : Chars} :
    diffFn (some p) none =
      if p.length = 0 ∨ (some p : Option Chars) = none then
        .ok ("previous is empty".data, [])
      else .error .attributeError := by
  rw [diffFn.eq_def, if_neg (by simp)]

theorem diffFn_some_some {p nw : Chars} (h : p ≠ nw) :
    diffFn (some p) (some nw) =
      if p.length = 0 ∨ (some p : Option Chars) = none then
        .ok ("previous is empty".data, [])
      else .ok (diffTail p nw) := by
  rw [diffFn.eq_def, if_neg (by simpa using h)]

/-! ## Claim theorems -/

/-- C8: `diff` returns the header `"Identical"` with an empty diff-line
list when previous equals new; an `"previous is empty"` marker with an
empty diff-line list when previous is the empty string (and new differs —
equal inputs take the `Identical` branch first); and for `"a\nb\nc"`
versus `"a\nx\nc"` it reports exactly 1 added and 1 removed line, with a
header stating both counts. -/
theorem C8_diff_cases :
    (∀ p : Option Chars, diffFn p p = .ok ("Identical".data, []))
    ∧ (∀ nw : Chars, nw ≠ [] →
        diffFn (some []) (some nw) = .ok ("previous is empty".data, []))
    ∧ diffFn (some "a\nb\nc".data) (some "a\nx\nc".data)
        = .ok (diffHeader 1 1, ["- b".data, "+ x".data])
    ∧ diffHeader 1 1 = "1 lines added and 1 lines removed:".data := by
  refine ⟨?_, ?_, by decide, by decide⟩
  · intro p
    rw [diffFn.eq_def, if_pos rfl]
  · intro nw hnw
    have hne : ¬(some ([] : Chars) = some nw) := fun h => hnw (Option.some.inj h).symm
    simp [diffFn, hne]

theorem C8_diff_cases_witness :
    diffFn (some []) (some "x".data) = .ok ("previous is empty".data, [])
    ∧ diffFn (some "a\nb".data) (some "a\nb".data) = .ok ("Identical".data, []) :=
  ⟨C8_diff_cases.2.1 "x".data (by decide), C8_diff_cases.1 (some "a\nb".data)⟩

/-- C9: a prompt element whose visibility evaluates to false renders the
empty string for its prompt, abstract example and concrete example,
regardless of internal state — including the shrink-mutated state of a
`Trunkater` after any number of shrink calls, a `Diff`, and the `History`
composite. -/
theorem C9_hidden_empty :
    (∀ e : PromptElementS, e.is_visible = false →
      e.prompt = [] ∧ e.abstract_ex = [] ∧ e.concrete_ex = [])
    ∧ (∀ (t : TrunkaterS) (k : ℕ), t.is_visible = false →
        (TrunkaterS.shrink^[k] t).prompt = [])
    ∧ (∀ d : DiffS, d.visible.eval = false → d.prompt = [])
    ∧ (∀ h : HistoryS, h.visible.eval = false → h.prompt = []) := by
  refine ⟨?_, ?_, ?_, ?_⟩
  · intro e he
    simp [PromptElementS.prompt, PromptElementS.abstract_ex,
      PromptElementS.concrete_ex, PromptElementS.hide, he]
  · intro t k ht
    have hvis : (TrunkaterS.shrink^[k] t).visible = t.visible := by
      induction k with
      | zero => rfl
      | succ m ih => rw [Function.iterate_succ_apply', trunk_shrink_visible, ih]
    rw [TrunkaterS.is_visible] at ht
    rw [TrunkaterS.prompt, if_neg (by rw [TrunkaterS.is_visible, hvis, ht]; simp)]
  · intro d hd
    rw [DiffS.prompt, if_neg (by simp [hd])]
  · intro h hh
    rw [HistoryS.prompt, if_neg (by simp [hh])]

theorem C9_hidden_empty_witness :
    PromptElementS.prompt ⟨VisSpec.const false, "p".data, "a".data, "c".data⟩ = []
    ∧ (TrunkaterS.shrink^[3]
        ⟨VisSpec.const false, 0, 0, 0, 0, "body".data⟩ : TrunkaterS).prompt = []
    ∧ DiffS.prompt ⟨VisSpec.const false, 20, 2, "h".data, [], []⟩ = [] :=
  ⟨(C9_hidden_empty.1 ⟨VisSpec.const false, "p".data, "a".data, "c".data⟩ rfl).1,
    C9_hidden_empty.2.1 ⟨VisSpec.const false, 0, 0, 0, 0, "body".data⟩ 3 rfl,
    C9_hidden_empty.2.2.1 ⟨VisSpec.const false, 20, 2, "h".data, [], []⟩ rfl⟩

/-- C10: calling `diff` with `previous=None` and any new value different
from `None` raises `TypeError` (`len(previous)` is evaluated before the
`previous is None` test is reached), so the `None` branch of the guard is
unreachable and the "previous is empty" result is produced only for an
empty-string previous, never for `None`. -/
theorem C10_diff_none :
    (∀ new : Option Chars, new ≠ none → diffFn none new = .error .typeError)
    ∧ (∀ (prev new : Option Chars) (out : List Chars),
        diffFn prev new = .ok ("previous is empty".data, out) →
        prev = some [] ∧ out = []) := by
  constructor
  · intro new hnew
    exact diffFn_none (fun h => hnew h.symm)
  · intro prev new out h
    by_cases heq : prev = new
    · rw [diffFn.eq_def, if_pos heq] at h
      rw [Except.ok.injEq, Prod.mk.injEq] at h
      exact absurd h.1 (by decide)
    · cases prev with
      | none =>
        rw [diffFn_none heq] at h
        cases h
      | some p =>
        cases new with
        | none =>
          rw [diffFn_some_none] at h
          by_cases hp : p.length = 0 ∨ (some p : Option Chars) = none
          · rw [if_pos hp] at h
            rw [Except.ok.injEq, Prod.mk.injEq] at h
            have hp0 : p.length = 0 := by
              rcases hp with h0 | h0
              · exact h0
              · cases h0
            exact ⟨by rw [List.eq_nil_of_length_eq_zero hp0], h.2.symm⟩
          · rw [if_neg hp] at h
            cases h
        | some nw =>
          rw [diffFn_some_some (fun hc => heq (by rw [hc]))] at h
          by_cases hp : p.length = 0 ∨ (some p : Option Chars) = none
          · rw [if_pos hp] at h
            rw [Except.ok.injEq, Prod.mk.injEq] at h
            have hp0 : p.length = 0 := by
              rcases hp with h0 | h0
              · exact h0
              · cases h0
            exact ⟨by rw [List.eq_nil_of_length_eq_zero hp0], h.2.symm⟩
          · rw [if_neg hp] at h
            rw [Except.ok.injEq] at h
            have hhd : (diffTail p nw).1 = "previous is empty".data :=
              congrArg Prod.fst h
            rw [show (diffTail p nw).1 = diffHeader
                ((ndiffLines (pySplitlines p) (pySplitlines nw)).filter startsPlus).length
                ((ndiffLines (pySplitlines p) (pySplitlines nw)).filter startsMinus).length
              from rfl] at hhd
            obtain ⟨d, t, ht, _⟩ := natDigits_shape
              ((ndiffLines (pySplitlines p) (pySplitlines nw)).filter startsPlus).length
            rw [diffHeader, ht] at hhd
            have hdp : digitChar d = 'p' := by
              have h0 := congrArg List.head? hhd
              simpa using h0
            exact absurd (hdp ▸ digitChar_cases d) (by decide)

theorem C10_diff_none_witness :
    diffFn none (some "x".data) = .error .typeError :=
  C10_diff_none.1 (some "x".data) (by decide)

/-- C6: each `Diff.shrink` call decreases the `max_line_diff` ceiling by
`shrink_speed`, never letting it drop below 1; rendering emits the header
followed by only the first `max_line_diff` diff lines, appending a
truncation notice carrying the count of hidden lines (total minus ceiling)
exactly when the total number of diff lines exceeds the ceiling; and the
header and diff lines of a constructed `Diff` are those computed by
`diff(previous, new)`. -/
theorem C6_diff_element :
    (∀ d : DiffS, d.shrink.max_line_diff = max 1 (d.max_line_diff - d.shrink_speed)
      ∧ 1 ≤ d.shrink.max_line_diff)
    ∧ (∀ d : DiffS, (d.diff_lines.length : ℤ) ≤ d.max_line_diff →
        d.promptBody = d.pfx ++ d.header ++ '\n' :: (joinNl d.diff_lines ++ ['\n']))
    ∧ (∀ d : DiffS, 0 ≤ d.max_line_diff → d.max_line_diff < (d.diff_lines.length : ℤ) →
        d.promptBody = d.pfx ++ d.header ++ '\n' ::
          ((joinNl (d.diff_lines.take d.max_line_diff.toNat)
            ++ '\n' :: diffNotice ((d.diff_lines.length : ℤ) - d.max_line_diff)) ++ ['\n']))
    ∧ (∀ (previous new : Option Chars) (pfx : Chars) (mld ss : ℤ) (vis : VisSpec)
        (d : DiffS), DiffS.init previous new pfx mld ss vis = .ok d →
        diffFn previous new = .ok (d.header, d.diff_lines)) := by
  refine ⟨fun d => ⟨diffS_shrink_ceiling d, diffS_shrink_ge_one d⟩,
    diffS_promptBody_within, diffS_promptBody_over, ?_⟩
  intro previous new pfx mld ss vis d h
  rw [DiffS.init] at h
  cases hd : diffFn previous new with
  | error e => rw [hd] at h; cases h
  | ok pr =>
    rw [hd] at h
    rw [Except.ok.injEq] at h
    rw [← h]

theorem C6_diff_element_witness :
    (DiffS.promptBody ⟨VisSpec.const true, 2, 2, "2 lines added and 0 lines removed:".data,
        ["+ a".data, "+ b".data], []⟩
      = [] ++ "2 lines added and 0 lines removed:".data
        ++ '\n' :: (joinNl ["+ a".data, "+ b".data] ++ ['\n']))
    ∧ (DiffS.promptBody ⟨VisSpec.const true, 1, 2, "2 lines added and 0 lines removed:".data,
        ["+ a".data, "+ b".data], []⟩
      = [] ++ "2 lines added and 0 lines removed:".data ++ '\n' ::
        ((joinNl [["+ a".data, "+ b".data].get ⟨0, by decide⟩]
          ++ '\n' :: diffNotice 1) ++ ['\n'])) := by
  constructor
  · exact C6_diff_element.2.1 _ (by decide)
  · have h := C6_diff_element.2.2.1
      ⟨VisSpec.const true, 1, 2, "2 lines added and 0 lines removed:".data,
        ["+ a".data, "+ b".data], []⟩ (by decide) (by decide)
    rw [h]
    decide

/-- C4 counterexample: a visible `Trunkater` over a two-line prompt, with
the `shrink_speed` 0.3 used by the `HTML`/`AXTree` subclasses and its
grace period elapsed, renders 3 characters before and 44 characters after
one `shrink` call — the appended deletion marker outweighs the removed
line, so the rendered size increases from one shrink call to the next. -/
theorem C4_counterexample :
    ((TrunkaterS.init (VisSpec.const true) (3 / 10) 0 "a\nb".data).prompt).length
      < (((TrunkaterS.init (VisSpec.const true) (3 / 10) 0 "a\nb".data).shrink).prompt).length := by
  have hinit : TrunkaterS.init (VisSpec.const true) (3 / 10) 0 "a\nb".data
      = ⟨VisSpec.const true, 3 / 10, 0, 0, 0, "a\nb".data⟩ := rfl
  rw [hinit, trunk_shrink_post_grace _ (by rfl) (le_refl 0)]
  have hsp : pySplitlines
      (⟨VisSpec.const true, 3 / 10, 0, 0, 0, "a\nb".data⟩ : TrunkaterS).pBody
      = ["a".data, "b".data] := by decide
  rw [hsp]
  have h1 : pyInt ((List.length ["a".data, "b".data] : ℚ)
      * (1 - (⟨VisSpec.const true, 3 / 10, 0, 0, 0,
          "a\nb".data⟩ : TrunkaterS).shrink_speed)) = 1 := by
    show pyInt ((List.length ["a".data, "b".data] : ℚ) * (1 - 3 / 10)) = 1
    rw [pyInt, if_pos (by norm_num)]
    norm_num
  rw [h1]
  decide

/-- C4 (amended): repeated `shrink` calls never raise (all shrink
operations are total functions of the element state) and are monotone in
the size-control state: a `Trunkater`'s cumulative deleted-line counter
never decreases and its call counter always increments, a `Diff`'s
display ceiling never drops below 1 and — once at least 1 — never
increases, and the composites (`Observation`, `HistoryStep`, `History`)
propagate `shrink` to every shrinkable child; the rendered size itself,
however, can increase when the appended deletion marker outweighs the
removed text (see the counterexample). -/
theorem C4_shrink_amended :
    (∀ t : TrunkaterS, 0 ≤ t.shrink_speed → t.deleted_lines ≤ t.shrink.deleted_lines)
    ∧ (∀ t : TrunkaterS, t.shrink.shrink_calls = t.shrink_calls + 1)
    ∧ (∀ d : DiffS, 1 ≤ d.shrink.max_line_diff)
    ∧ (∀ d : DiffS, 0 ≤ d.shrink_speed → 1 ≤ d.max_line_diff →
        d.shrink.max_line_diff ≤ d.max_line_diff)
    ∧ (∀ o : ObservationS, o.shrink.ax_tree = o.ax_tree.shrink
        ∧ o.shrink.html = o.html.shrink ∧ o.shrink.error = o.error
        ∧ o.shrink.focused_element = o.focused_element)
    ∧ (∀ h : HistoryStepS, h.shrink.html_diff = h.html_diff.shrink
        ∧ h.shrink.ax_tree_diff = h.ax_tree_diff.shrink)
    ∧ (∀ h : HistoryS, h.shrink.history_steps = h.history_steps.map HistoryStepS.shrink) :=
  ⟨trunk_deleted_mono, trunk_shrink_calls, diffS_shrink_ge_one, diffS_shrink_mono,
    fun _ => ⟨rfl, rfl, rfl, rfl⟩, fun _ => ⟨rfl, rfl⟩, fun _ => rfl⟩

theorem C4_shrink_amended_witness :
    ((⟨VisSpec.const true, 3 / 10, 0, 0, 5, "a\nb".data⟩ : TrunkaterS).deleted_lines
      ≤ (⟨VisSpec.const true, 3 / 10, 0, 0, 5, "a\nb".data⟩ : TrunkaterS).shrink.deleted_lines)
    ∧ (DiffS.shrink ⟨VisSpec.const true, 20, 2, "h".data, [], []⟩).max_line_diff ≤ 20 := by
  constructor
  · exact C4_shrink_amended.1 _ (by norm_num)
  · exact C4_shrink_amended.2.2.2.1 ⟨VisSpec.const true, 20, 2, "h".data, [], []⟩
      (by norm_num) (by norm_num)

/-- C5: for a visible `Trunkater` whose shrink-call counter has reached
the grace period, one `shrink` call keeps only the first
`⌊n·(1−shrink_speed)⌋` of its `n` lines and appends the one-line deletion
marker stating the cumulative deleted-line count; the deleted-line counter
is monotonically non-decreasing; a 20-line prompt with `shrink_speed=0.3`
is left with exactly its first 14 content lines plus the marker; and
before the grace period a shrink call removes no lines. -/
theorem C5_trunkater :
    (∀ t : TrunkaterS, t.is_visible = true →
      t.start_trunkate_iteration ≤ t.shrink_calls →
      0 ≤ t.shrink_speed → t.shrink_speed ≤ 1 →
      t.shrink.pBody = joinNl ((pySplitlines t.pBody).take
          (⌊((pySplitlines t.pBody).length : ℚ) * (1 - t.shrink_speed)⌋).toNat)
        ++ '\n' :: trunkMarker t.shrink.deleted_lines
      ∧ t.shrink.deleted_lines = t.deleted_lines + (((pySplitlines t.pBody).length : ℤ)
          - ⌊((pySplitlines t.pBody).length : ℚ) * (1 - t.shrink_speed)⌋))
    ∧ (∀ dl : ℤ, '\n' ∉ trunkMarker dl)
    ∧ (∀ t : TrunkaterS, 0 ≤ t.shrink_speed →
        t.deleted_lines ≤ t.shrink.deleted_lines)
    ∧ (∀ t : TrunkaterS, t.is_visible = true →
        t.start_trunkate_iteration ≤ t.shrink_calls → t.shrink_speed = 3 / 10 →
        (pySplitlines t.pBody).length = 20 →
        pySplitlines t.shrink.pBody
          = (pySplitlines t.pBody).take 14 ++ [trunkMarker t.shrink.deleted_lines])
    ∧ (∀ t : TrunkaterS, t.shrink_calls < t.start_trunkate_iteration →
        t.shrink.pBody = t.pBody ∧ t.shrink.deleted_lines = t.deleted_lines) := by
  have hfloor : ∀ t : TrunkaterS, 0 ≤ t.shrink_speed → t.shrink_speed ≤ 1 →
      pyInt (((pySplitlines t.pBody).length : ℚ) * (1 - t.shrink_speed))
        = ⌊((pySplitlines t.pBody).length : ℚ) * (1 - t.shrink_speed)⌋ := by
    intro t h0 h1
    refine pyInt_of_nonneg ?_
    have : (0 : ℚ) ≤ ((pySplitlines t.pBody).length : ℚ) := by positivity
    nlinarith
  have hmain : ∀ t : TrunkaterS, t.is_visible = true →
      t.start_trunkate_iteration ≤ t.shrink_calls →
      0 ≤ t.shrink_speed → t.shrink_speed ≤ 1 →
      t.shrink.pBody = joinNl ((pySplitlines t.pBody).take
          (⌊((pySplitlines t.pBody).length : ℚ) * (1 - t.shrink_speed)⌋).toNat)
        ++ '\n' :: trunkMarker t.shrink.deleted_lines
      ∧ t.shrink.deleted_lines = t.deleted_lines + (((pySplitlines t.pBody).length : ℤ)
          - ⌊((pySplitlines t.pBody).length : ℚ) * (1 - t.shrink_speed)⌋) := by
    intro t hv hg h0 h1
    rw [trunk_shrink_post_grace t hv hg]
    simp only
    rw [hfloor t h0 h1]
    refine ⟨?_, rfl⟩
    rw [pySliceTo, if_pos (Int.floor_nonneg.mpr (by
      have : (0 : ℚ) ≤ ((pySplitlines t.pBody).length : ℚ) := by positivity
      nlinarith))]
  refine ⟨hmain, ?_, trunk_deleted_mono, ?_, ?_⟩
  · intro dl hmem
    rw [trunkMarker] at hmem
    rcases List.mem_append.mp hmem with hm | hm
    · rcases List.mem_append.mp hm with hm' | hm'
      · exact absurd hm' (by decide)
      · exact nl_not_mem_intDigits dl hm'
    · exact absurd hm (by decide)
  · intro t hv hg hs h20
    obtain ⟨hbody, _⟩ := hmain t hv hg (by rw [hs]; norm_num) (by rw [hs]; norm_num)
    have h14 : (⌊((pySplitlines t.pBody).length : ℚ) * (1 - t.shrink_speed)⌋).toNat = 14 := by
      rw [h20, hs]
      norm_num
      decide
    rw [hbody, h14]
    have htake_ne : (pySplitlines t.pBody).take 14 ≠ [] := by
      intro hc
      have := congrArg List.length hc
      simp [h20] at this
    refine pySplitlines_join_marker _ htake_ne ?_ _ ?_ ?_
    · intro l hl
      have hl' : l ∈ pySplitlines t.pBody := List.take_subset _ _ hl
      cases hbody' : t.pBody with
      | nil => rw [hbody'] at hl'; simp [pySplitlines] at hl'
      | cons c cs =>
        rw [hbody'] at hl'
        rw [pySplitlines_of_ne_nil (by simp)] at hl'
        split at hl'
        · exact nl_not_mem_splitOnNl _ l (List.dropLast_subset _ hl')
        · exact nl_not_mem_splitOnNl _ l hl'
    · intro hc
      rw [trunkMarker] at hc
      have := congrArg List.length hc
      simp at this
    · intro hmem
      rw [trunkMarker] at hmem
      rcases List.mem_append.mp hmem with hm | hm
      · rcases List.mem_append.mp hm with hm' | hm'
        · exact absurd hm' (by decide)
        · exact nl_not_mem_intDigits _ hm'
      · exact absurd hm (by decide)
  · intro t hlt
    rw [trunk_shrink_pre_grace t (fun hc => absurd hc.2 (by omega))]
    exact ⟨rfl, rfl⟩

theorem C5_trunkater_witness :
    (pySplitlines (TrunkaterS.shrink ⟨VisSpec.const true, 3 / 10, 0, 0, 0,
        "l0\nl1\nl2\nl3\nl4\nl5\nl6\nl7\nl8\nl9\nl10\nl11\nl12\nl13\nl14\nl15\nl16\nl17\nl18\nl19".data⟩).pBody
      = (pySplitlines
          "l0\nl1\nl2\nl3\nl4\nl5\nl6\nl7\nl8\nl9\nl10\nl11\nl12\nl13\nl14\nl15\nl16\nl17\nl18\nl19".data).take 14
        ++ [trunkMarker (TrunkaterS.shrink ⟨VisSpec.const true, 3 / 10, 0, 0, 0,
            "l0\nl1\nl2\nl3\nl4\nl5\nl6\nl7\nl8\nl9\nl10\nl11\nl12\nl13\nl14\nl15\nl16\nl17\nl18\nl19".data⟩).deleted_lines])
    ∧ '\n' ∉ trunkMarker 6
    ∧ (TrunkaterS.shrink ⟨VisSpec.const true, 3 / 10, 5, 2, 0, "a\nb".data⟩).pBody
        = "a\nb".data := by
  refine ⟨?_, C5_trunkater.2.1 6, ?_⟩
  · exact C5_trunkater.2.2.2.1 _ rfl (le_refl 0) rfl (by decide)
  · exact (C5_trunkater.2.2.2.2 ⟨VisSpec.const true, 3 / 10, 5, 2, 0, "a\nb".data⟩
      (by norm_num)).1

/-- C2: `fit_tokens` with `max_prompt_tokens` unset returns the root's
rendered prompt unchanged, independently of the shrink function (no shrink
occurs); otherwise each of at most `max_iterations` iterations returns the
fragment immediately when the count of its textual parts is within budget,
else shrinks once and repeats; when the budget is never met it returns the
last rendered fragment without raising, together with the diagnostic token
count; image parts are excluded from the counted text. -/
theorem C2_fit_tokens :
    (∀ (σ : Type) (render : σ → Fragment) (sf sf' : σ → σ) (c cd : Chars → ℕ)
      (it : ℕ) (s : σ),
      fit_tokens render sf c cd none it s = some ⟨render s, none⟩
      ∧ fit_tokens render sf c cd none it s = fit_tokens render sf' c cd none it s)
    ∧ (∀ (σ : Type) (render : σ → Fragment) (sf : σ → σ) (c cd : Chars → ℕ)
        (mt k : ℕ) (s : σ), c (fragmentText (render s)) ≤ mt →
        fit_tokens render sf c cd (some mt) (k + 1) s = some ⟨render s, none⟩)
    ∧ (∀ (σ : Type) (render : σ → Fragment) (sf : σ → σ) (c cd : Chars → ℕ)
        (mt k : ℕ) (s : σ), mt < c (fragmentText (render s)) →
        fit_tokens render sf c cd (some mt) (k + 2) s
          = fit_tokens render sf c cd (some mt) (k + 1) (sf s))
    ∧ (∀ (σ : Type) (render : σ → Fragment) (sf : σ → σ) (c cd : Chars → ℕ)
        (mt n : ℕ) (s : σ), 1 ≤ n →
        (∀ j < n, mt < c (fragmentText (render (sf^[j] s)))) →
        fit_tokens render sf c cd (some mt) n s
          = some ⟨render (sf^[n - 1] s),
              some (cd (fragmentText (render (sf^[n - 1] s))))⟩)
    ∧ (∀ (l : List Part) (u : Chars),
        fragmentText (.parts (l ++ [Part.image u])) = fragmentText (.parts l)) := by
  refine ⟨fun σ render sf sf' c cd it s => ⟨rfl, rfl⟩, ?_, ?_, ?_, ?_⟩
  · intro σ render sf c cd mt k s h
    show fitLoop render sf c cd mt (k + 1) s = some ⟨render s, none⟩
    rw [fitLoop, if_pos h]
  · intro σ render sf c cd mt k s h
    show fitLoop render sf c cd mt (k + 2) s = fitLoop render sf c cd mt (k + 1) (sf s)
    exact fitLoop_over render sf c cd mt k s h
  · intro σ render sf c cd mt n s h1 hover
    show fitLoop render sf c cd mt n s = _
    exact fitLoop_exhaust render sf c cd mt n s h1 hover
  · intro l u
    simp [fragmentText, List.filterMap_append]

theorem C2_fit_tokens_witness :
    fit_tokens (fun s : ℕ => Fragment.str (List.replicate s 'a')) (fun s => s - 1)
        List.length List.length none 3 4 = some ⟨Fragment.str (List.replicate 4 'a'), none⟩
    ∧ fit_tokens (fun s : ℕ => Fragment.str (List.replicate s 'a')) (fun s => s - 1)
        List.length List.length (some 7) 3 4 = some ⟨Fragment.str (List.replicate 4 'a'), none⟩
    ∧ fit_tokens (fun s : ℕ => Fragment.str (List.replicate s 'a')) (fun s => s + 1)
        List.length List.length (some 2) 2 4
        = some ⟨Fragment.str (List.replicate ((fun s : ℕ => s + 1)^[1] 4) 'a'),
            some (List.replicate ((fun s : ℕ => s + 1)^[1] 4) 'a').length⟩ := by
  refine ⟨?_, ?_, ?_⟩
  · exact (C2_fit_tokens.1 ℕ _ (fun s => s - 1) (fun s => s - 1)
      List.length List.length 3 4).1
  · exact C2_fit_tokens.2.1 ℕ _ (fun s => s - 1) List.length List.length 7 2 4 (by decide)
  · exact C2_fit_tokens.2.2.2.1 ℕ _ (fun s => s + 1) List.length List.length 2 2 4
      (by decide) (by decide)

/-- C1: the retry protocol.  On a rate-limit error the driver sleeps the
wait duration extracted from the error text, floored at
`min_retry_wait_time`, adds it to the accrued delay, re-raises the
rate-limit error exactly when the accrued delay reaches
`rate_limit_max_wait_time`, and never increments the try counter; on a
parse failure it appends the model reply and a corrective turn built from
the failure message (two turns) and increments the try counter; a parser
that always fails raises the retry-exhaustion error after exactly
`n_retry` endpoint invocations; a successful parse returns the parsed
value having appended only the reply; a parser that fails twice then
succeeds leaves the conversation at its initial length plus 5. -/
theorem C1_retry_protocol :
    (∀ (α : Type) (prs : Chars → α × Bool × Chars) (n : ℕ) (minW maxW : ℚ)
      (err : Chars) (rest : List ChatOutcome) (msgs : List Turn) (tries : ℕ)
      (delay : ℚ) (sleeps : List ℚ) (inv : ℕ), tries < n → delay < maxW →
      retryGo prs n minW maxW (ChatOutcome.rateLimit err :: rest) msgs tries delay sleeps inv =
        if maxW ≤ delay + extract_wait_time err minW then
          ⟨.rateLimitError err, msgs, sleeps ++ [extract_wait_time err minW], inv + 1⟩
        else
          retryGo prs n minW maxW rest msgs tries (delay + extract_wait_time err minW)
            (sleeps ++ [extract_wait_time err minW]) (inv + 1))
    ∧ (∀ (err : Chars) (minW : ℚ), minW ≤ extract_wait_time err minW)
    ∧ (∀ (α : Type) (prs : Chars → α × Bool × Chars) (n : ℕ) (minW maxW : ℚ)
        (content : Chars) (rest : List ChatOutcome) (msgs : List Turn) (tries : ℕ)
        (delay : ℚ) (sleeps : List ℚ) (inv : ℕ), tries < n → delay < maxW →
        (prs content).2.1 = false →
        retryGo prs n minW maxW (ChatOutcome.reply content :: rest) msgs tries delay sleeps inv =
          retryGo prs n minW maxW rest
            (msgs ++ [Turn.assistant content, Turn.human (prs content).2.2])
            (tries + 1) delay sleeps (inv + 1))
    ∧ (∀ (α : Type) (prs : Chars → α × Bool × Chars) (n : ℕ) (minW maxW : ℚ)
        (content : Chars) (rest : List ChatOutcome) (msgs : List Turn) (tries : ℕ)
        (delay : ℚ) (sleeps : List ℚ) (inv : ℕ), tries < n → delay < maxW →
        (prs content).2.1 = true →
        retryGo prs n minW maxW (ChatOutcome.reply content :: rest) msgs tries delay sleeps inv =
          ⟨.success (prs content).1, msgs ++ [Turn.assistant content], sleeps, inv + 1⟩)
    ∧ (∀ (α : Type) (prs : Chars → α × Bool × Chars),
        (∀ c, (prs c).2.1 = false) → ∀ (n : ℕ) (minW maxW : ℚ)
        (replies : List Chars) (msgs : List Turn), 0 < maxW → n ≤ replies.length →
        (retry prs n minW maxW (replies.map ChatOutcome.reply) msgs).result
            = .retryError (retryErrMsg n)
        ∧ (retry prs n minW maxW (replies.map ChatOutcome.reply) msgs).invocations = n)
    ∧ (∀ (α : Type) (prs : Chars → α × Bool × Chars) (a b cc : Chars) (n : ℕ)
        (minW maxW : ℚ) (msgs : List Turn), 0 < maxW → 2 < n →
        (prs a).2.1 = false → (prs b).2.1 = false → (prs cc).2.1 = true →
        retry prs n minW maxW
            [ChatOutcome.reply a, ChatOutcome.reply b, ChatOutcome.reply cc] msgs =
          ⟨.success (prs cc).1,
            msgs ++ [Turn.assistant a, Turn.human (prs a).2.2,
              Turn.assistant b, Turn.human (prs b).2.2, Turn.assistant cc], [], 3⟩
        ∧ (retry prs n minW maxW
            [ChatOutcome.reply a, ChatOutcome.reply b, ChatOutcome.reply cc]
            msgs).messages.length = msgs.length + 5) := by
  refine ⟨fun α => retryGo_rateLimit, ?_, ?_, ?_, ?_, ?_⟩
  · intro err minW
    cases h : searchWait err with
    | none => simp [extract_wait_time, h]
    | some w => simp [extract_wait_time, h, le_max_left]
  · intro α prs n minW maxW content rest msgs tries delay sleeps inv h1 h2 hf
    rw [retryGo_reply prs n minW maxW content rest msgs tries delay sleeps inv h1 h2,
      if_neg (by simp [hf])]
  · intro α prs n minW maxW content rest msgs tries delay sleeps inv h1 h2 hf
    rw [retryGo_reply prs n minW maxW content rest msgs tries delay sleeps inv h1 h2,
      if_pos hf]
  · intro α prs hfail n minW maxW replies msgs hmw hlen
    have h := retryGo_always_fail prs hfail n minW maxW hmw replies msgs 0 [] 0
      (by omega) (by omega)
    exact ⟨h.1, by simpa using h.2⟩
  · intro α prs a b cc n minW maxW msgs hmw hn hfa hfb hfc
    have step1 := retryGo_reply prs n minW maxW a
      [ChatOutcome.reply b, ChatOutcome.reply cc] msgs 0 0 [] 0 (by omega) hmw
    rw [if_neg (by simp [hfa])] at step1
    have step2 := retryGo_reply prs n minW maxW b [ChatOutcome.reply cc]
      (msgs ++ [Turn.assistant a, Turn.human (prs a).2.2]) 1 0 [] 1 (by omega) hmw
    rw [if_neg (by simp [hfb])] at step2
    have step3 := retryGo_reply prs n minW maxW cc []
      ((msgs ++ [Turn.assistant a, Turn.human (prs a).2.2])
        ++ [Turn.assistant b, Turn.human (prs b).2.2]) 2 0 [] 2 (by omega) hmw
    rw [if_pos hfc] at step3
    have hrun : retry prs n minW maxW
        [ChatOutcome.reply a, ChatOutcome.reply b, ChatOutcome.reply cc] msgs =
        ⟨.success (prs cc).1,
          ((msgs ++ [Turn.assistant a, Turn.human (prs a).2.2])
            ++ [Turn.assistant b, Turn.human (prs b).2.2]) ++ [Turn.assistant cc],
          [], 3⟩ := by
      rw [retry, step1, step2, step3]
    constructor
    · rw [hrun]
      simp
    · rw [hrun]
      simp

theorem C1_retry_protocol_witness :
    (retry (fun c => (c.length, decide (c = "ok".data), "please follow the format".data))
        3 60 1800
        [ChatOutcome.reply "x".data, ChatOutcome.reply "y".data, ChatOutcome.reply "ok".data]
        [Turn.system "sys".data] =
      ⟨.success 2,
        [Turn.system "sys".data, Turn.assistant "x".data,
          Turn.human "please follow the format".data, Turn.assistant "y".data,
          Turn.human "please follow the format".data, Turn.assistant "ok".data], [], 3⟩)
    ∧ (retry (fun c => (c.length, false, "never valid".data)) 2 60 1800
        [ChatOutcome.reply "r1".data, ChatOutcome.reply "r2".data] []).result
        = .retryError (retryErrMsg 2)
    ∧ (retry (fun c => (c.length, false, "never valid".data)) 2 60 1800
        [ChatOutcome.reply "r1".data, ChatOutcome.reply "r2".data] []).invocations = 2
    ∧ 60 ≤ extract_wait_time "Rate limit reached, try again in 5s.".data 60 := by
  have h6 := (C1_retry_protocol.2.2.2.2.2 ℕ
    (fun c => (c.length, decide (c = "ok".data), "please follow the format".data))
    "x".data "y".data "ok".data 3 60 1800 [Turn.system "sys".data]
    (by decide) (by decide) (by decide) (by decide) (by decide)).1
  have h5 := C1_retry_protocol.2.2.2.2.1 ℕ
    (fun c => (c.length, false, "never valid".data)) (fun _ => rfl) 2 60 1800
    ["r1".data, "r2".data] [] (by decide) (by decide)
  refine ⟨?_, h5.1, h5.2, C1_retry_protocol.2.1 "Rate limit reached, try again in 5s.".data 60⟩
  rw [h6]
  rfl

/-- C3: on a duplicate-free key list, `parse_html_tags` succeeds and reports
`valid` exactly when no messages were accumulated, with the correction
message the newline-join of all accumulated messages; a required key with
no occurrence accumulates a message starting with "Missing the key";
multiple occurrences with `merge_multiple=False` accumulate a multiplicity
message, and with `merge_multiple=True` the occurrences are joined with a
newline in the returned dict; an absent key is omitted from the returned
dict; `parse_html_tags_raise` raises exactly when `valid` is false,
carrying the correction message, and otherwise returns the same mapping;
and `<action>click</action>` parses to the mapping `action ↦ click` with
`valid=True`. -/
theorem C3_parse_html_tags :
    (∀ (text : Chars) (keys opt : List Chars) (mm : Bool),
      (keys ++ opt).Nodup →
      ∃ d, parse_html_tags text keys opt mm
        = .ok (d, (parseMsgs text keys opt mm).isEmpty,
            joinNl (parseMsgs text keys opt mm)))
    ∧ (∀ (text : Chars) (keys opt : List Chars) (mm : Bool) (key : Chars),
        key ∈ keys → key ∉ opt → extractKey text key = [] →
        missing_msg key ∈ parseMsgs text keys opt mm
        ∧ hasPrefixA "Missing the key".data (missing_msg key) = true)
    ∧ (∀ (text : Chars) (keys opt : List Chars) (key v v' : Chars) (vs : List Chars),
        key ∈ keys ++ opt → extractKey text key = v :: v' :: vs →
        multiple_msg key ∈ parseMsgs text keys opt false)
    ∧ (∀ (text : Chars) (keys opt : List Chars) (key v v' : Chars) (vs : List Chars)
        (d : PyDict) (valid : Bool) (corr : Chars),
        (keys ++ opt).Nodup → key ∈ keys ++ opt → extractKey text key = v :: v' :: vs →
        parse_html_tags text keys opt true = .ok (d, valid, corr) →
        dictGet d key = some (PyVal.vStr (joinNl (v :: v' :: vs))))
    ∧ (∀ (text : Chars) (keys opt : List Chars) (mm : Bool) (key : Chars)
        (d : PyDict) (valid : Bool) (corr : Chars),
        (keys ++ opt).Nodup → extractKey text key = [] →
        parse_html_tags text keys opt mm = .ok (d, valid, corr) →
        dictGet d key = none)
    ∧ (∀ (text : Chars) (keys opt : List Chars) (mm : Bool)
        (d : PyDict) (corr : Chars),
        parse_html_tags text keys opt mm = .ok (d, false, corr) →
        parse_html_tags_raise text keys opt mm = .ok (.error corr))
    ∧ (∀ (text : Chars) (keys opt : List Chars) (mm : Bool)
        (d : PyDict) (corr : Chars),
        parse_html_tags text keys opt mm = .ok (d, true, corr) →
        parse_html_tags_raise text keys opt mm = .ok (.ok d))
    ∧ parse_html_tags "I will click it.\n<action>click</action>".data
        ["action".data] [] false
      = .ok ([("action".data, PyVal.vStr "click".data)], true, []) := by
  refine ⟨?_, ?_, ?_, ?_, ?_, ?_, ?_, by decide⟩
  · intro text keys opt mm hnd
    obtain ⟨d, hspec, _, _⟩ := parse_html_tags_spec text keys opt mm hnd
    exact ⟨d, hspec⟩
  · intro text keys opt mm key hk hnopt hx
    constructor
    · have hkm : keyMsgs text opt mm key = [missing_msg key] := by
        simp [keyMsgs, hx, hnopt]
      refine mem_parseMsgs (List.mem_append_left _ hk) ?_
      rw [hkm]
      exact List.mem_singleton_self _
    · rw [missing_msg,
        show "Missing the key <".data = "Missing the key".data ++ " <".data from by decide,
        List.append_assoc, List.append_assoc]
      exact hasPrefixA_append_self _ _
  · intro text keys opt key v v' vs hk hx
    have hkm : keyMsgs text opt false key = [multiple_msg key] := by
      simp [keyMsgs, hx]
    refine mem_parseMsgs hk ?_
    rw [hkm]
    exact List.mem_singleton_self _
  · intro text keys opt key v v' vs d valid corr hnd hk hx hpar
    obtain ⟨d', hspec, hin, _⟩ := parse_html_tags_spec text keys opt true hnd
    rw [hpar] at hspec
    injection hspec with h1
    have hdd : d = d' := congrArg Prod.fst h1
    rw [hdd]
    have hd := hin key hk
    rw [hx] at hd
    rw [hd]
    exact rfl
  · intro text keys opt mm key d valid corr hnd hx hpar
    obtain ⟨d', hspec, hin, hout⟩ := parse_html_tags_spec text keys opt mm hnd
    rw [hpar] at hspec
    injection hspec with h1
    have hdd : d = d' := congrArg Prod.fst h1
    rw [hdd]
    by_cases hk : key ∈ keys ++ opt
    · have hd := hin key hk
      rw [hx] at hd
      exact hd
    · exact hout key hk
  · intro text keys opt mm d corr h
    simp [parse_html_tags_raise, h]
  · intro text keys opt mm d corr h
    simp [parse_html_tags_raise, h]

theorem C3_parse_html_tags_witness :
    (∃ d, parse_html_tags "<think>a</think>".data ["think".data] ["memo".data] false
      = .ok (d,
          (parseMsgs "<think>a</think>".data ["think".data] ["memo".data] false).isEmpty,
          joinNl (parseMsgs "<think>a</think>".data ["think".data] ["memo".data] false)))
    ∧ (missing_msg "action".data ∈ parseMsgs "no tags here".data ["action".data] [] false
      ∧ hasPrefixA "Missing the key".data (missing_msg "action".data) = true)
    ∧ multiple_msg "think".data
        ∈ parseMsgs "<think>a</think><think>b</think>".data ["think".data] [] false
    ∧ dictGet [("think".data, PyVal.vStr "a\nb".data)] "think".data
        = some (PyVal.vStr (joinNl ["a".data, "b".data]))
    ∧ dictGet ([] : PyDict) "memo".data = none
    ∧ parse_html_tags_raise "no tags here".data ["action".data] [] false
        = .ok (.error (missing_msg "action".data))
    ∧ parse_html_tags_raise "<action>click</action>".data ["action".data] [] false
        = .ok (.ok [("action".data, PyVal.vStr "click".data)]) :=
  ⟨C3_parse_html_tags.1 "<think>a</think>".data ["think".data] ["memo".data] false
      (by decide),
    C3_parse_html_tags.2.1 "no tags here".data ["action".data] [] false "action".data
      (by decide) (by decide) (by decide),
    C3_parse_html_tags.2.2.1 "<think>a</think><think>b</think>".data ["think".data] []
      "think".data "a".data "b".data [] (by decide) (by decide),
    C3_parse_html_tags.2.2.2.1 "<think>a</think><think>b</think>".data ["think".data] []
      "think".data "a".data "b".data []
      [("think".data, PyVal.vStr "a\nb".data)] true []
      (by decide) (by decide) (by decide) (by decide),
    C3_parse_html_tags.2.2.2.2.1 "no tags here".data ["action".data] ["memo".data] false
      "memo".data [] false (missing_msg "action".data)
      (by decide) (by decide) (by decide),
    C3_parse_html_tags.2.2.2.2.2.1 "no tags here".data ["action".data] [] false
      [] (missing_msg "action".data) (by decide),
    C3_parse_html_tags.2.2.2.2.2.2.1 "<action>click</action>".data ["action".data] []
      false [("action".data, PyVal.vStr "click".data)] [] (by decide)⟩

/-- C7: the extraction step scans left to right, capturing each non-nested
occurrence of the opening/closing tag pair for a key (whenever the opening
tag first occurs right after `a` and the closing tag first occurs right
after the inner content `c`, that content is captured and the scan
continues after the closing tag); on a duplicate-free key list, a key
present exactly once maps in the parsed dict to the trimmed inner text;
content may span multiple lines; and matching is case-sensitive. -/
theorem C7_extraction :
    (∀ key a c b : Chars,
      noEarlyMatchB (openTag key) a (openTag key ++ (c ++ (closeTag key ++ b))) = true →
      noEarlyMatchB (closeTag key) c (closeTag key ++ b) = true →
      tagContents key (a ++ (openTag key ++ (c ++ (closeTag key ++ b))))
        = c :: tagContents key b)
    ∧ (∀ (text key : Chars) (keys opt : List Chars) (mm : Bool) (c : Chars)
        (d : PyDict) (valid : Bool) (corr : Chars),
        (keys ++ opt).Nodup → key ∈ keys ++ opt → tagContents key text = [c] →
        parse_html_tags text keys opt mm = .ok (d, valid, corr) →
        dictGet d key = some (PyVal.vStr (pyStrip c)))
    ∧ tagContents "action".data "<Action>x</Action>".data = []
    ∧ extractKey "say:\n<action>\nclick\nthe button\n</action>".data "action".data
        = ["click\nthe button".data] := by
  refine ⟨fun key a c b h1 h2 => tagContents_split h1 h2, ?_, by decide, by decide⟩
  intro text key keys opt mm c d valid corr hnd hk hc hpar
  have hx : extractKey text key = [pyStrip c] := by
    rw [extractKey, hc]
    rfl
  obtain ⟨d', hspec, hin, _⟩ := parse_html_tags_spec text keys opt mm hnd
  rw [hpar] at hspec
  injection hspec with h1
  have hdd : d = d' := congrArg Prod.fst h1
  rw [hdd]
  have hd := hin key hk
  rw [hx] at hd
  rw [hd]
  cases mm <;> exact rfl

theorem C7_extraction_witness :
    tagContents "action".data
        ("say: ".data ++ (openTag "action".data ++ (" go ".data
          ++ (closeTag "action".data ++ " tail <action>two</action>".data))))
      = " go ".data :: tagContents "action".data " tail <action>two</action>".data
    ∧ dictGet [("action".data, PyVal.vStr "click".data)] "action".data
        = some (PyVal.vStr (pyStrip "\nclick\n".data)) := by
  constructor
  · exact C7_extraction.1 "action".data "say: ".data " go ".data
      " tail <action>two</action>".data (by decide) (by decide)
  · exact C7_extraction.2.1 "pre <action>\nclick\n</action> post".data "action".data
      ["action".data] [] false "\nclick\n".data
      [("action".data, PyVal.vStr "click".data)] true []
      (by decide) (by decide) (by decide) (by decide)

end AgentLab
